import Mathlib

/-!
# maxcso command line: flag resolution and argument validation

A shallow embedding of `src/cli/cli.cpp`: the `Arguments` record, `parse_args` with
`has_arg`, `has_arg_value` and `has_arg_method`, `validate_args` (output naming, codec
flag clean-up, the DAX checks), the task list built by `main` and the error callback
that sets `main`'s result.

`uint32_t` values are natural numbers; `|` and `&` are `|||` and `&&&`, and `~` is
`not32`, the complement within 32 bits.  A `std::string` is a list of characters.
The constants of `compress.h` (the `TASKFLAG_*` masks, `DEFAULT_BLOCK_SIZE`,
`TASK_SUCCESS`) are not part of `cli.cpp`; they are taken as a parameter `Consts`.
-/

namespace Maxcso

/-- A `std::string`: one `Char` for each `char` element. -/
abbrev Str := List Char

/-- The 32-bit complement `~x` of a `uint32_t`. -/
def not32 (x : Nat) : Nat := (2 ^ 32 - 1) ^^^ (x % 2 ^ 32)

/-- The constants of namespace `maxcso` that `cli.cpp` uses. Their declarations are in
`compress.h`, so they are parameters of the embedding. -/
structure Consts where
  TASKFLAG_NO_ZLIB_DEFAULT : Nat
  TASKFLAG_NO_ZLIB_BRUTE : Nat
  TASKFLAG_NO_ZOPFLI : Nat
  TASKFLAG_NO_7ZIP : Nat
  TASKFLAG_NO_LZ4_DEFAULT : Nat
  TASKFLAG_NO_LZ4_HC : Nat
  TASKFLAG_NO_LZ4_HC_BRUTE : Nat
  TASKFLAG_FORCE_ALL : Nat
  TASKFLAG_DECOMPRESS : Nat
  TASKFLAG_FMT_CSO_2 : Nat
  TASKFLAG_FMT_ZSO : Nat
  TASKFLAG_FMT_DAX : Nat
  TASKFLAG_NO_ZLIB : Nat
  TASKFLAG_NO_LZ4 : Nat
  TASKFLAG_NO_ALL : Nat
  DEFAULT_BLOCK_SIZE : Nat
  TASK_INPROGRESS : Int
  TASK_SUCCESS : Int

/-- The per-method disable bits. -/
def Consts.methodBits (K : Consts) : List Nat :=
  [K.TASKFLAG_NO_ZLIB_DEFAULT, K.TASKFLAG_NO_ZLIB_BRUTE, K.TASKFLAG_NO_ZOPFLI,
   K.TASKFLAG_NO_7ZIP, K.TASKFLAG_NO_LZ4_DEFAULT, K.TASKFLAG_NO_LZ4_HC,
   K.TASKFLAG_NO_LZ4_HC_BRUTE]

/-- The bits that are no method's disable bit: force, decompress and the formats. -/
def Consts.otherBits (K : Consts) : List Nat :=
  [K.TASKFLAG_FORCE_ALL, K.TASKFLAG_DECOMPRESS, K.TASKFLAG_FMT_CSO_2,
   K.TASKFLAG_FMT_ZSO, K.TASKFLAG_FMT_DAX]

/-- The reading of the `TASKFLAG_*` constants as bit masks: every basic constant is one
bit of a `uint32_t`, the bits are pairwise disjoint, and the compound masks are the
unions their names say. -/
structure Consts.WellFormed (K : Consts) : Prop where
  single : ∀ m ∈ K.methodBits ++ K.otherBits, ∃ k, k < 32 ∧ m = 2 ^ k
  disjoint : (K.methodBits ++ K.otherBits).Pairwise (fun a b => a &&& b = 0)
  no_zlib : K.TASKFLAG_NO_ZLIB = K.TASKFLAG_NO_ZLIB_DEFAULT ||| K.TASKFLAG_NO_ZLIB_BRUTE
  no_lz4 : K.TASKFLAG_NO_LZ4 =
    K.TASKFLAG_NO_LZ4_DEFAULT ||| K.TASKFLAG_NO_LZ4_HC ||| K.TASKFLAG_NO_LZ4_HC_BRUTE
  no_all : K.TASKFLAG_NO_ALL =
    K.TASKFLAG_NO_ZLIB ||| K.TASKFLAG_NO_ZOPFLI ||| K.TASKFLAG_NO_7ZIP ||| K.TASKFLAG_NO_LZ4

/-- The values `parse_args` gives `flags_fmt`: `0` for cso1 (the default), and the
format bit for cso2, zso and dax. -/
def Consts.formats (K : Consts) : List Nat :=
  [0, K.TASKFLAG_FMT_CSO_2, K.TASKFLAG_FMT_ZSO, K.TASKFLAG_FMT_DAX]

/-- The function `has_arg_method` (the build with 7-zip deflate): `some method` when it
returns true, having set `method`, and `none` when it returns false. `argv_i` is
`argv[i]` and `arg` the option stem (`--use-`, `--no-`, `--only-`). -/
def has_arg_method (K : Consts) (argv_i : Str) (arg : Str) : Option Nat :=
  if arg.isPrefixOf argv_i then
    let val := argv_i.drop arg.length
    if val = "zlib".data then some K.TASKFLAG_NO_ZLIB
    else if val = "zopfli".data then some K.TASKFLAG_NO_ZOPFLI
    else if val = "7zdeflate".data ∨ val = "7zip".data then some K.TASKFLAG_NO_7ZIP
    else if val = "lz4".data then some (K.TASKFLAG_NO_LZ4_DEFAULT ||| K.TASKFLAG_NO_LZ4_HC)
    else if val = "lz4brute".data then some K.TASKFLAG_NO_LZ4_HC_BRUTE
    else none
  else none

/-- The `--format` branch of `parse_args`: the value assigned to `flags_fmt` for the
format name `val`, `none` for an unknown name (help is shown and 1 returned). -/
def parse_format (K : Consts) (val : Str) : Option Nat :=
  if val = "cso1".data then some 0
  else if val = "cso2".data then some K.TASKFLAG_FMT_CSO_2
  else if val = "zso".data then some K.TASKFLAG_FMT_ZSO
  else if val = "dax".data then some K.TASKFLAG_FMT_DAX
  else none

/-- What the program asks of its host: the CPU count `uv_cpu_info` reports and
`basename` of `libgen.h`. -/
structure Host where
  cpu_count : Int
  basename : Str → Str

/-- The record `struct Arguments`. -/
structure Arguments where
  inputs : List Str
  outputs : List Str
  output_path : Str
  threads : Int
  block_size : Nat
  flags_fmt : Nat
  flags_use : Nat
  flags_no : Nat
  flags_only : Nat
  flags_final : Nat
  orig_cost_percent : Float
  lz4_cost_percent : Float
  fast : Bool
  smallest : Bool
  quiet : Bool
  crc : Bool
  decompress : Bool

/-- The function `default_args`; the fields it does not assign (`inputs`, `outputs`,
`output_path`) are default-constructed, that is, empty. -/
def default_args (K : Consts) : Arguments :=
  { inputs := [], outputs := [], output_path := [],
    threads := 0, block_size := K.DEFAULT_BLOCK_SIZE,
    flags_fmt := 0, flags_use := 0, flags_no := 0, flags_only := 0, flags_final := 0,
    orig_cost_percent := 0.0, lz4_cost_percent := 0.0,
    fast := false, smallest := false, quiet := false, crc := false, decompress := false }

/-- The function `get_basename` of the non-Windows build. -/
def get_basename (H : Host) (filename : Str) : Str := H.basename filename

/-- The extension chosen at the head of the output-naming block of `validate_args`. -/
def outputExt (K : Consts) (args : Arguments) : Str :=
  if args.flags_fmt &&& K.TASKFLAG_FMT_DAX ≠ 0 then ".dax".data
  else if args.flags_fmt &&& K.TASKFLAG_FMT_ZSO ≠ 0 then ".zso".data
  else ".cso".data

/-- One turn of the loop "Automatically write to .cso files if not specified": the
output pushed for `input`, if any. -/
def auto_output (K : Consts) (H : Host) (args : Arguments) (input : Str) : Option Str :=
  if input.length ≤ 4 then none
  else
    let ext := (input.drop (input.length - 4)).map Char.toLower
    let inputRawExt := decide (ext = ".iso".data)
    let inputCompressedExt :=
      decide (ext = ".cso".data) || decide (ext = ".zso".data) || decide (ext = ".dax".data)
    let without_ext := input.take (input.length - 4)
    let without_ext :=
      if args.output_path ≠ [] then args.output_path ++ get_basename H without_ext
      else without_ext
    if !args.decompress && (inputRawExt || inputCompressedExt)
        && decide (ext ≠ outputExt K args) then
      some (without_ext ++ outputExt K args)
    else if args.decompress && inputCompressedExt then
      some (without_ext ++ ".iso".data)
    else none

/-- The whole loop: it runs over the inputs from index `outputs.size()` on and appends
to `outputs`. -/
def auto_outputs (K : Consts) (H : Host) (args : Arguments) : List Str :=
  args.outputs ++ (args.inputs.drop args.outputs.length).filterMap (auto_output K H args)

/-- The block "Cleanup flags" of `validate_args`: the value assigned to
`flags_final`. -/
def cleanup_flags (K : Consts) (args : Arguments) : Nat :=
  -- defaults first, by format
  let f :=
    if args.flags_fmt &&& K.TASKFLAG_FMT_CSO_2 ≠ 0 then
      K.TASKFLAG_NO_ZOPFLI ||| K.TASKFLAG_NO_LZ4_HC_BRUTE
    else if args.flags_fmt &&& K.TASKFLAG_FMT_ZSO ≠ 0 then
      K.TASKFLAG_NO_ZLIB ||| K.TASKFLAG_NO_7ZIP ||| K.TASKFLAG_NO_ZOPFLI
        ||| K.TASKFLAG_NO_LZ4_HC_BRUTE
    else
      K.TASKFLAG_NO_ZOPFLI ||| K.TASKFLAG_NO_LZ4
  -- kill the NO flags of the --use-METHOD args, insert those of the --no-METHOD args
  let f := f &&& not32 args.flags_use
  let f := f ||| args.flags_no
  -- --only-METHOD: set all NOs and kill those NOs only
  let f := if args.flags_only ≠ 0 then (f ||| K.TASKFLAG_NO_ALL) &&& not32 args.flags_only else f
  let f :=
    if args.fast then
      f ||| (K.TASKFLAG_NO_ZLIB_BRUTE ||| K.TASKFLAG_NO_ZOPFLI ||| K.TASKFLAG_NO_7ZIP
        ||| K.TASKFLAG_NO_LZ4_HC_BRUTE ||| K.TASKFLAG_NO_LZ4_HC)
    else f
  let f := if args.smallest then f ||| K.TASKFLAG_FORCE_ALL else f
  let f := if args.decompress then f ||| K.TASKFLAG_DECOMPRESS else f
  f ||| args.flags_fmt

/-- The mask `deflateFlags` of the DAX check. -/
def deflateFlags (K : Consts) : Nat :=
  K.TASKFLAG_NO_ZLIB ||| K.TASKFLAG_NO_ZLIB_DEFAULT ||| K.TASKFLAG_NO_ZLIB_BRUTE
    ||| K.TASKFLAG_NO_ZOPFLI ||| K.TASKFLAG_NO_7ZIP

/-- The end of `validate_args`, from the test for no input files on: flag clean-up and
the DAX checks. -/
def validate_flags (K : Consts) (args : Arguments) : Int × Arguments :=
  if args.inputs = [] then (1, args)                               -- no input files
  else
    let args := { args with flags_final := cleanup_flags K args }
    if args.flags_fmt &&& K.TASKFLAG_FMT_DAX ≠ 0 then
      if args.block_size ≠ K.DEFAULT_BLOCK_SIZE then (1, args)     -- DAX has a fixed block size
      else if args.flags_final &&& deflateFlags K = deflateFlags K then (1, args)
      else (0, args)
    else (0, args)

/-- The head of `validate_args`: a thread count of 0 is replaced by the CPU count that
`uv_cpu_info` reports. -/
def detect_threads (H : Host) (args : Arguments) : Arguments :=
  if args.threads = 0 then { args with threads := H.cpu_count } else args

/-- The function `validate_args`: the returned code and the `Arguments` as the call
leaves them (the record is updated in place, also on the error returns). The help and
error texts written to `stderr` are left out. -/
def validate_args (K : Consts) (H : Host) (args : Arguments) : Int × Arguments :=
  let args := detect_threads H args
  if args.inputs.length < args.outputs.length then (1, args)       -- too many output files
  else if args.crc then
    if args.outputs.length ≠ 0 then (1, args)                      -- outputs with --crc
    else validate_flags K args
  else
    let args := { args with outputs := auto_outputs K H args }
    if args.inputs.length ≠ args.outputs.length then (1, args)     -- too few output files
    else validate_flags K args

/-- The record `maxcso::Task` as `main` fills it; the two callbacks, the same closures
in every task, are left out. -/
structure Task where
  input : Str
  output : Str
  block_size : Nat
  flags : Nat
  orig_max_cost_percent : Float
  lz4_max_cost_percent : Float

/-- The loop of `main` that builds `tasks`, one per input. -/
def build_tasks (args : Arguments) : List Task :=
  (List.range args.inputs.length).map fun i =>
    { input := args.inputs.getD i [],
      output := if !args.crc then args.outputs.getD i [] else [],
      block_size := args.block_size,
      flags := args.flags_final,
      orig_max_cost_percent := args.orig_cost_percent,
      lz4_max_cost_percent := args.lz4_cost_percent }

/-- The part of `main` from `validate_args` to the task list: `none` when validation
returns non-zero (`main` returns that code and builds nothing). -/
def main_tasks (K : Consts) (H : Host) (args : Arguments) : Option (List Task) :=
  let r := validate_args K H args
  if r.1 ≠ 0 then none else some (build_tasks r.2)

/-- The string `ANSI_RESET_LINE`. -/
def ANSI_RESET_LINE : Str := "\x1b[2K\x1b[0G".data

/-- What the error callback of `main` reads and writes of `main`'s locals: `result`,
`statusInfo`, and the buffers handed to `uv_write` for the terminal, oldest first. -/
structure MainState where
  result : Int
  statusInfo : Str
  written : List Str

/-- One invocation of the error callback: the task, the status and the reason. -/
structure ErrorEvent where
  task : Task
  status : Int
  reason : Str

/-- The error callback of `main` (the lambda `error`), as a step on `MainState`;
`formatting` is the local of `main` of that name. -/
def error_callback (K : Consts) (args : Arguments) (formatting : Bool)
    (st : MainState) (e : ErrorEvent) : MainState :=
  -- change the result to indicate failure
  let st := if e.status ≠ K.TASK_SUCCESS then { st with result := 1 } else st
  if args.quiet then st
  else
    let pfx : Str := if e.status = K.TASK_SUCCESS then [] else "Error while processing ".data
    let statusInfo :=
      (if formatting then ANSI_RESET_LINE else []) ++ pfx ++ e.task.input ++ ": ".data
        ++ e.reason ++ "\n".data
    { st with statusInfo := statusInfo, written := st.written ++ [statusInfo] }

/-- The state of `main` after a sequence of error-callback invocations; `main` returns
the `result` of the last state. -/
def run_errors (K : Consts) (args : Arguments) (formatting : Bool)
    (st : MainState) (events : List ErrorEvent) : MainState :=
  events.foldl (error_callback K args formatting) st

/-- The default disabled set of a format, in the words of the help text and of the
format list: cso2 leaves out zopfli and lz4brute; zso leaves out zlib, 7zdeflate, zopfli
and lz4brute; cso1 and dax leave out zopfli and every lz4 tier. -/
def spec_default_disabled (K : Consts) (fmt : Nat) : Nat :=
  if fmt = K.TASKFLAG_FMT_CSO_2 then
    K.TASKFLAG_NO_ZOPFLI ||| K.TASKFLAG_NO_LZ4_HC_BRUTE
  else if fmt = K.TASKFLAG_FMT_ZSO then
    K.TASKFLAG_NO_ZLIB ||| K.TASKFLAG_NO_7ZIP ||| K.TASKFLAG_NO_ZOPFLI
      ||| K.TASKFLAG_NO_LZ4_HC_BRUTE
  else
    K.TASKFLAG_NO_ZOPFLI ||| K.TASKFLAG_NO_LZ4

/-- The methods a format variant does not support, as a mask of disable bits: the
DEFLATE methods (zlib, zopfli, 7zdeflate) for zso, the lz4 tiers for cso1 and dax, none
for cso2. -/
def spec_unsupported (K : Consts) (fmt : Nat) : Nat :=
  if fmt = K.TASKFLAG_FMT_ZSO then
    K.TASKFLAG_NO_ZLIB ||| K.TASKFLAG_NO_ZOPFLI ||| K.TASKFLAG_NO_7ZIP
  else if fmt = K.TASKFLAG_FMT_CSO_2 then 0
  else K.TASKFLAG_NO_LZ4

/-- The two functions of the C library that `parse_args` calls on option values. -/
structure Libc where
  atoi : Str → Int
  atof : Str → Float

/-- The function `has_arg`: `argv[i]` equals `arg`. -/
def has_arg (i : Nat) (argv : List Str) (arg : Str) : Bool :=
  decide (arg = argv.getD i [])

/-- The function `has_arg_value`: the returned flag, and `i` and `val` as the call leaves
them. `argv` holds `argv[0]` to `argv[argc-1]`; `argv[argc]` is the null pointer, and a
null `val` is `none`. The first test, `arg.compare(0, npos, argv[i], arg.size()) == 0`,
says that `arg` is the start of `argv[i]`. -/
def has_arg_value (i : Nat) (argv : List Str) (arg : Str) (val : Option Str) :
    Bool × Nat × Option Str :=
  let a := argv.getD i []
  if arg.isPrefixOf a then
    if a.length = arg.length then (true, i + 1, argv[i + 1]?)
    else if a[arg.length]? = some '=' then (true, i, some (a.drop (arg.length + 1)))
    else (false, i, val)
  else (false, i, val)

/-- How one turn of the option loop of `parse_args` ends, and how `parse_args` itself
ends. -/
inductive Flow where
  /-- The turn is over; the loop goes on with `++i`. -/
  | next (i : Nat) (args : Arguments) (val : Option Str)
  /-- The loop is left, by `break` or by its condition, with this `i`. -/
  | leave (i : Nat) (args : Arguments)
  /-- A `return` with this code. -/
  | ret (code : Int) (args : Arguments)
  /-- A null `val` is read (an option that wants a value is the last argument):
  undefined behaviour. -/
  | null_val
  /-- The embedding ran out of fuel. -/
  | out_of_fuel

/-- The code of a `return`. -/
def Flow.code? : Flow → Option Int
  | .ret code _ => some code
  | _ => none

/-- The arguments at a `return`. -/
def Flow.args? : Flow → Option Arguments
  | .ret _ args => some args
  | _ => none

/-- The conversion of an `int` to `uint32_t`. -/
def to_uint32 (x : Int) : Nat := (x % 4294967296).toNat

/-- The function `wildcard_to_inputs` of the non-Windows build: `files.push_back(arg)`. -/
def wildcard_to_inputs (arg : Str) (files : List Str) : List Str := files ++ [arg]

/-- The body of the option loop of `parse_args` for an `argv[i]` that starts with `-`. -/
def parse_arg (K : Consts) (L : Libc) (i : Nat) (argv : List Str) (args : Arguments)
    (val : Option Str) : Flow :=
  if has_arg i argv "--help".data || has_arg i argv "-h".data then .ret 1 args
  else if has_arg i argv "--version".data || has_arg i argv "-v".data then .ret 1 args
  else
  match has_arg_value i argv "--block".data val with
  | (true, i, val) =>
    match val with
    | none => .null_val
    | some v => .next i { args with block_size := to_uint32 (L.atoi v) } val
  | (false, i, val) =>
  match has_arg_value i argv "--threads".data val with
  | (true, i, val) =>
    match val with
    | none => .null_val
    | some v => .next i { args with threads := L.atoi v } val
  | (false, i, val) =>
  match has_arg_value i argv "--orig-cost".data val with
  | (true, i, val) =>
    match val with
    | none => .null_val
    | some v => .next i { args with orig_cost_percent := L.atof v } val
  | (false, i, val) =>
  match has_arg_value i argv "--lz4-cost".data val with
  | (true, i, val) =>
    match val with
    | none => .null_val
    | some v => .next i { args with lz4_cost_percent := L.atof v } val
  | (false, i, val) =>
  match has_arg_value i argv "--format".data val with
  | (true, i, val) =>
    match val with
    | none => .null_val
    | some v =>
      match parse_format K v with
      | some fmt => .next i { args with flags_fmt := fmt } val
      | none => .ret 1 args                                   -- unknown format
  | (false, i, val) =>
  if has_arg i argv "--crc".data then .next i { args with crc := true } val
  else if has_arg i argv "--quiet".data then .next i { args with quiet := true } val
  else if has_arg i argv "--fast".data then .next i { args with fast := true } val
  else if has_arg i argv "--smallest".data then .next i { args with smallest := true } val
  else if has_arg i argv "--decompress".data then
    .next i { args with decompress := true } val
  else
  match has_arg_method K (argv.getD i []) "--use-".data with
  | some method => .next i { args with flags_use := args.flags_use ||| method } val
  | none =>
  match has_arg_method K (argv.getD i []) "--no-".data with
  | some method => .next i { args with flags_no := args.flags_no ||| method } val
  | none =>
  match has_arg_method K (argv.getD i []) "--only-".data with
  | some method => .next i { args with flags_only := args.flags_only ||| method } val
  | none =>
  match has_arg_value i argv "--output-path".data val with
  | (true, i, val) =>
    match val with
    | none => .null_val
    | some v =>
      -- not just a prefix: a `/` is added to a non-empty path that does not end in one
      .next i { args with output_path :=
        if 1 ≤ v.length ∧ v.getLast? ≠ some '/' then v ++ "/".data else v } val
  | (false, i, val) =>
  match has_arg_value i argv "--out".data val with
  | (true, i, val) =>
    match val with
    | none => .null_val
    | some v => .next i { args with outputs := args.outputs ++ [args.output_path ++ v] } val
  | (false, i, val) =>
  match has_arg_value i argv "-o".data val with
  | (true, i, val) =>
    match val with
    | none => .null_val
    | some v => .next i { args with outputs := args.outputs ++ [args.output_path ++ v] } val
  | (false, i, _) =>
  if has_arg i argv "--".data then .leave i args              -- break
  else .ret 1 args                                            -- unknown argument

/-- The first loop of `parse_args`, `for (i = 1; i < argc; ++i)`, from index `i` on;
`fuel` bounds the number of turns. -/
def parse_loop (K : Consts) (L : Libc) (argv : List Str) :
    Nat → Nat → Arguments → Option Str → Flow
  | 0, _, _, _ => .out_of_fuel
  | fuel + 1, i, args, val =>
    if i < argv.length then
      if (argv.getD i []).head? = some '-' then
        match parse_arg K L i argv args val with
        | .next i args val => parse_loop K L argv fuel (i + 1) args val
        | r => r
      else
        parse_loop K L argv fuel (i + 1)
          { args with inputs := wildcard_to_inputs (argv.getD i []) args.inputs } val
    else .leave i args

/-- The second loop of `parse_args`, `for (; i < argc; ++i)`: every `argv[i]` from the
current `i` on goes to the inputs. -/
def rest_to_inputs (argv : List Str) : Nat → Nat → Arguments → Arguments
  | 0, _, args => args
  | fuel + 1, i, args =>
    if i < argv.length then
      rest_to_inputs argv fuel (i + 1)
        { args with inputs := wildcard_to_inputs (argv.getD i []) args.inputs }
    else args

/-- The function `parse_args`: both loops, then `return 0`. Each turn of the first loop
moves `i` forward, so `argc + 1` turns of fuel are enough. -/
def parse_args (K : Consts) (L : Libc) (args : Arguments) (argv : List Str) : Flow :=
  match parse_loop K L argv (argv.length + 1) 1 args none with
  | .leave i args => .ret 0 (rest_to_inputs argv argv.length i args)
  | r => r

/-- The flag fields hold what `parse_args` can store in them: `flags_fmt` one of the
four format values, and `flags_use`, `flags_no`, `flags_only` method bits only. -/
def Arguments.FlagsParsed (K : Consts) (a : Arguments) : Prop :=
  a.flags_fmt ∈ K.formats ∧
  a.flags_use &&& K.TASKFLAG_NO_ALL = a.flags_use ∧
  a.flags_no &&& K.TASKFLAG_NO_ALL = a.flags_no ∧
  a.flags_only &&& K.TASKFLAG_NO_ALL = a.flags_only

/-- The extension of a format's container files: `.dax` for dax, `.zso` for zso, `.cso`
for cso1 and cso2. -/
def spec_format_ext (K : Consts) (fmt : Nat) : Str :=
  if fmt = K.TASKFLAG_FMT_DAX then ".dax".data
  else if fmt = K.TASKFLAG_FMT_ZSO then ".zso".data
  else ".cso".data

/-- The last four characters of a name, in lower case. -/
def spec_lower_ext (input : Str) : Str :=
  (input.drop (input.length - 4)).map Char.toLower

/-- A sample assignment of the constants, one bit each, for the concrete runs below. -/
def maxcsoConsts : Consts :=
  { TASKFLAG_NO_ZLIB_DEFAULT := 0x001, TASKFLAG_NO_ZLIB_BRUTE := 0x002,
    TASKFLAG_NO_ZOPFLI := 0x004, TASKFLAG_NO_7ZIP := 0x008,
    TASKFLAG_FORCE_ALL := 0x010,
    TASKFLAG_FMT_CSO_2 := 0x020, TASKFLAG_FMT_ZSO := 0x040,
    TASKFLAG_NO_LZ4_DEFAULT := 0x080, TASKFLAG_NO_LZ4_HC := 0x100,
    TASKFLAG_NO_LZ4_HC_BRUTE := 0x200,
    TASKFLAG_DECOMPRESS := 0x400, TASKFLAG_FMT_DAX := 0x800,
    TASKFLAG_NO_ZLIB := 0x003, TASKFLAG_NO_LZ4 := 0x380, TASKFLAG_NO_ALL := 0x38F,
    DEFAULT_BLOCK_SIZE := 2048,
    TASK_INPROGRESS := 0, TASK_SUCCESS := 1 }

/-- A host with four CPUs whose `basename` keeps what follows the last `/`. -/
def sampleHost : Host :=
  { cpu_count := 4,
    basename := fun s => (s.reverse.takeWhile (fun c => c ≠ '/')).reverse }

/-! ## Sample command lines -/

/-- Arguments of `maxcso --format=zso --use-zopfli --no-zlib --only-zlib --only-lz4brute
--smallest --decompress a.cso`. -/
def onlyArgs : Arguments :=
  { default_args maxcsoConsts with
    inputs := ["a.cso".data], flags_fmt := 0x040, flags_use := 0x004, flags_no := 0x003,
    flags_only := 0x203, smallest := true, decompress := true }

/-- Arguments of `maxcso --format=zso --use-zlib --no-zlib --use-lz4brute a.iso`. -/
def useNoArgs : Arguments :=
  { default_args maxcsoConsts with
    inputs := ["a.iso".data], flags_fmt := 0x040, flags_use := 0x203, flags_no := 0x003 }

/-- Arguments of `maxcso a.iso`. -/
def plainArgs : Arguments :=
  { default_args maxcsoConsts with inputs := ["a.iso".data] }

/-- Arguments of `maxcso --fast --use-zopfli --only-7zdeflate a.iso`. -/
def fastArgs : Arguments :=
  { default_args maxcsoConsts with
    inputs := ["a.iso".data], flags_use := 0x004, flags_only := 0x008, fast := true }

/-- Arguments of `maxcso --only-zlib --no-zlib a.iso`. -/
def onlyNoArgs : Arguments :=
  { default_args maxcsoConsts with
    inputs := ["a.iso".data], flags_no := 0x003, flags_only := 0x003 }

/-- Arguments of `maxcso --no-zlib --no-7zdeflate a.iso`. -/
def noDeflateArgs : Arguments :=
  { default_args maxcsoConsts with inputs := ["a.iso".data], flags_no := 0x00B }

/-- Arguments of `maxcso --format=dax --no-zlib --no-7zdeflate a.iso`. -/
def daxNoDeflateArgs : Arguments :=
  { default_args maxcsoConsts with
    inputs := ["a.iso".data], flags_fmt := 0x800, flags_no := 0x00B }

/-- Arguments of `maxcso --use-lz4 a.iso`. -/
def useLz4Args : Arguments :=
  { default_args maxcsoConsts with inputs := ["a.iso".data], flags_use := 0x180 }

/-- Arguments of `maxcso --format=zso --only-zlib a.iso`. -/
def zsoOnlyZlibArgs : Arguments :=
  { default_args maxcsoConsts with
    inputs := ["a.iso".data], flags_fmt := 0x040, flags_only := 0x003 }

/-- Arguments of `maxcso --format=dax --block=4096 a.iso`. -/
def daxBlockArgs : Arguments :=
  { default_args maxcsoConsts with
    inputs := ["a.iso".data], flags_fmt := 0x800, block_size := 4096 }

/-- Arguments of `maxcso --format=dax --no-zlib a.iso`. -/
def daxArgs : Arguments :=
  { default_args maxcsoConsts with
    inputs := ["a.iso".data], flags_fmt := 0x800, flags_no := 0x003 }

/-- A task for input `a.iso` with output `a.cso`. -/
def sampleTask : Task :=
  { input := "a.iso".data, output := "a.cso".data, block_size := 2048, flags := 0x384,
    orig_max_cost_percent := 0.0, lz4_max_cost_percent := 0.0 }

/-- Two invocations of the error callback: one with `TASK_SUCCESS`, one with another
status (2). -/
def sampleEvents : List ErrorEvent :=
  [{ task := sampleTask, status := 1, reason := "done".data },
   { task := sampleTask, status := 2, reason := "bad input".data }]

/-- The locals of `main` when validation has succeeded: `result` is 0 and nothing has
been written. -/
def startState : MainState := { result := 0, statusInfo := [], written := [] }

/-- Arguments of `maxcso --crc --block=4096 --fast a.iso b.cso`. -/
def crcArgs : Arguments :=
  { default_args maxcsoConsts with
    inputs := ["a.iso".data, "b.cso".data], crc := true, block_size := 4096, fast := true }

/-- Arguments of `maxcso --format=zso -o x.zso first.iso DISC.ISO b.cso`. -/
def namingArgs : Arguments :=
  { default_args maxcsoConsts with
    inputs := ["first.iso".data, "DISC.ISO".data, "b.cso".data],
    outputs := ["x.zso".data], flags_fmt := 0x040 }

/-- Arguments of `maxcso --decompress game.CSO`. -/
def unpackArgs : Arguments :=
  { default_args maxcsoConsts with inputs := ["game.CSO".data], decompress := true }

/-- A C library whose `atoi` reads a run of decimal digits and whose `atof` is not
needed by the runs below. -/
def sampleLibc : Libc :=
  { atoi := fun s => Int.ofNat ((s.takeWhile Char.isDigit).foldl
      (fun n c => 10 * n + (c.toNat - '0'.toNat)) 0),
    atof := fun _ => 0.0 }

/-- The command line `maxcso -- -a.iso`. -/
def markerArgv : List Str := ["maxcso".data, "--".data, "-a.iso".data]

/-! ## Bit-level facts -/

theorem testBit_not32 (x i : Nat) :
    (not32 x).testBit i = (decide (i < 32) && !x.testBit i) := by
  unfold not32
  rw [Nat.testBit_xor, Nat.testBit_two_pow_sub_one, Nat.testBit_mod_two_pow]
  cases decide (i < 32) <;> simp

theorem or_and_right (x y z : Nat) : (x ||| y) &&& z = (x &&& z) ||| (y &&& z) := by
  apply Nat.eq_of_testBit_eq; intro i
  simp only [Nat.testBit_and, Nat.testBit_or]
  cases x.testBit i <;> cases y.testBit i <;> cases z.testBit i <;> rfl

theorem or_and_of_disj {x b A : Nat} (h : b &&& A = 0) : (x ||| b) &&& A = x &&& A := by
  rw [or_and_right, h, Nat.or_zero]

theorem only_and (X A o : Nat) : ((X ||| A) &&& not32 o) &&& A = A &&& not32 o := by
  apply Nat.eq_of_testBit_eq; intro i
  simp only [Nat.testBit_and, Nat.testBit_or, testBit_not32]
  cases X.testBit i <;> cases A.testBit i <;> cases o.testBit i <;> simp

/-! ## The values `parse_args` stores in the flag fields -/

/-- A mask that `has_arg_method` yields holds method bits only; `parse_args` ORs such
masks into `flags_use`, `flags_no` and `flags_only`. -/
theorem has_arg_method_sub {K : Consts} (hK : K.WellFormed) (argv_i arg : Str) (m : Nat)
    (h : has_arg_method K argv_i arg = some m) : m &&& K.TASKFLAG_NO_ALL = m := by
  unfold has_arg_method at h
  simp only at h
  split_ifs at h
  all_goals
    simp only [Option.some.injEq] at h
    subst h
    rw [hK.no_all, hK.no_lz4, hK.no_zlib]
    apply Nat.eq_of_testBit_eq; intro i
    simp only [Nat.testBit_and, Nat.testBit_or]
    cases K.TASKFLAG_NO_ZLIB_DEFAULT.testBit i <;> cases K.TASKFLAG_NO_ZLIB_BRUTE.testBit i <;>
    cases K.TASKFLAG_NO_ZOPFLI.testBit i <;> cases K.TASKFLAG_NO_7ZIP.testBit i <;>
    cases K.TASKFLAG_NO_LZ4_DEFAULT.testBit i <;> cases K.TASKFLAG_NO_LZ4_HC.testBit i <;>
    cases K.TASKFLAG_NO_LZ4_HC_BRUTE.testBit i <;> rfl

/-- Masks of method bits stay masks of method bits under `|=`. -/
theorem or_sub {x m A : Nat} (hx : x &&& A = x) (hm : m &&& A = m) :
    (x ||| m) &&& A = x ||| m := by
  rw [or_and_right, hx, hm]

/-- The `--format` branch leaves in `flags_fmt` one of the values of `Consts.formats`. -/
theorem parse_format_mem (K : Consts) (val : Str) (f : Nat)
    (h : parse_format K val = some f) : f ∈ K.formats := by
  unfold parse_format at h
  split_ifs at h <;> simp only [Option.some.injEq] at h <;> subst h <;>
    simp [Consts.formats]

/-! ## What `validate_args` has checked when it returns 0 -/

theorem cleanup_flags_congr (K : Consts) (a b : Arguments)
    (h1 : a.flags_fmt = b.flags_fmt) (h2 : a.flags_use = b.flags_use)
    (h3 : a.flags_no = b.flags_no) (h4 : a.flags_only = b.flags_only)
    (h5 : a.fast = b.fast) (h6 : a.smallest = b.smallest)
    (h7 : a.decompress = b.decompress) : cleanup_flags K a = cleanup_flags K b := by
  simp only [cleanup_flags, h1, h2, h3, h4, h5, h6, h7]

theorem validate_flags_zero (K : Consts) (a : Arguments)
    (h : (validate_flags K a).1 = 0) :
    (validate_flags K a).2.flags_final = cleanup_flags K a ∧ a.inputs ≠ [] ∧
      (a.flags_fmt &&& K.TASKFLAG_FMT_DAX ≠ 0 →
        a.block_size = K.DEFAULT_BLOCK_SIZE ∧
        cleanup_flags K a &&& deflateFlags K ≠ deflateFlags K) := by
  unfold validate_flags at h ⊢
  by_cases hi : a.inputs = []
  · simp [hi] at h
  · by_cases hd : a.flags_fmt &&& K.TASKFLAG_FMT_DAX = 0
    · simp [hi, hd]
    · by_cases hb : a.block_size = K.DEFAULT_BLOCK_SIZE
      · by_cases hf : cleanup_flags K a &&& deflateFlags K = deflateFlags K
        · simp [hi, hd, hb, hf] at h
        · simp [hi, hd, hb, hf]
      · simp [hi, hd, hb] at h

/-- When `validate_args` returns 0 it has run `validate_flags` on a record that differs
from its argument in `threads` and `outputs` at most. -/
theorem validate_args_stage (K : Consts) (H : Host) (a : Arguments)
    (h : (validate_args K H a).1 = 0) :
    ∃ b : Arguments, validate_args K H a = validate_flags K b ∧
      b.inputs = a.inputs ∧ b.block_size = a.block_size ∧ b.flags_fmt = a.flags_fmt ∧
      b.flags_use = a.flags_use ∧ b.flags_no = a.flags_no ∧
      b.flags_only = a.flags_only ∧ b.fast = a.fast ∧ b.smallest = a.smallest ∧
      b.decompress = a.decompress := by
  have ht : ∀ b : Arguments, b = detect_threads H a →
      b.inputs = a.inputs ∧ b.block_size = a.block_size ∧ b.flags_fmt = a.flags_fmt ∧
      b.flags_use = a.flags_use ∧ b.flags_no = a.flags_no ∧
      b.flags_only = a.flags_only ∧ b.fast = a.fast ∧ b.smallest = a.smallest ∧
      b.decompress = a.decompress := by
    intro b hb
    unfold detect_threads at hb
    split_ifs at hb <;> subst hb <;> simp
  unfold validate_args at h ⊢
  simp only at h ⊢
  generalize detect_threads H a = b at h ht ⊢
  have hb := ht b rfl
  split_ifs at h ⊢
  all_goals first
    | (exfalso; simp at h)
    | exact ⟨_, rfl, hb⟩

theorem validate_args_zero (K : Consts) (H : Host) (a : Arguments)
    (h : (validate_args K H a).1 = 0) :
    (validate_args K H a).2.flags_final = cleanup_flags K a ∧ a.inputs ≠ [] ∧
      (a.flags_fmt &&& K.TASKFLAG_FMT_DAX ≠ 0 →
        a.block_size = K.DEFAULT_BLOCK_SIZE ∧
        cleanup_flags K a &&& deflateFlags K ≠ deflateFlags K) := by
  obtain ⟨b, hb, h1, h2, h3, h4, h5, h6, h7, h8, h9⟩ := validate_args_stage K H a h
  rw [hb] at h ⊢
  have := validate_flags_zero K b h
  rw [cleanup_flags_congr K b a h3 h4 h5 h6 h7 h8 h9, h1, h2, h3] at this
  exact this

/-! ## Consequences of the bit-mask reading of the constants -/

theorem maxcsoConsts_wf : maxcsoConsts.WellFormed := by
  refine ⟨?_, by decide, rfl, rfl, rfl⟩
  decide

/-- The bits outside the method bits do not meet `TASKFLAG_NO_ALL`. -/
theorem wf_no_all_disj {K : Consts} (hK : K.WellFormed) :
    K.TASKFLAG_NO_ALL &&& K.TASKFLAG_FORCE_ALL = 0 ∧
    K.TASKFLAG_NO_ALL &&& K.TASKFLAG_DECOMPRESS = 0 ∧
    K.TASKFLAG_NO_ALL &&& K.TASKFLAG_FMT_CSO_2 = 0 ∧
    K.TASKFLAG_NO_ALL &&& K.TASKFLAG_FMT_ZSO = 0 ∧
    K.TASKFLAG_NO_ALL &&& K.TASKFLAG_FMT_DAX = 0 := by
  have h := hK.disjoint
  simp only [Consts.methodBits, Consts.otherBits, List.cons_append, List.nil_append,
    List.pairwise_cons, List.mem_cons, forall_eq_or_imp, List.mem_singleton, forall_eq] at h
  rw [hK.no_all, hK.no_lz4, hK.no_zlib]
  simp [or_and_right, h]

theorem wf_fmt_disj {K : Consts} (hK : K.WellFormed) {fmt : Nat} (hf : fmt ∈ K.formats) :
    fmt &&& K.TASKFLAG_NO_ALL = 0 := by
  obtain ⟨_, _, h1, h2, h3⟩ := wf_no_all_disj hK
  simp only [Consts.formats, List.mem_cons, List.mem_singleton] at hf
  rcases hf with rfl | rfl | rfl | rfl | hf
  · simp
  · rw [Nat.and_comm]; exact h1
  · rw [Nat.and_comm]; exact h2
  · rw [Nat.and_comm]; exact h3
  · simp at hf

/-- The last three steps of `cleanup_flags` (force, decompress, format) leave the method
bits as they are. -/
theorem tail_and_no_all {K : Consts} (hK : K.WellFormed) {fmt : Nat} (hf : fmt ∈ K.formats)
    (f : Nat) (s d : Bool) :
    ((if d then (if s then f ||| K.TASKFLAG_FORCE_ALL else f) ||| K.TASKFLAG_DECOMPRESS
        else (if s then f ||| K.TASKFLAG_FORCE_ALL else f)) ||| fmt) &&& K.TASKFLAG_NO_ALL
      = f &&& K.TASKFLAG_NO_ALL := by
  obtain ⟨h1, h2, -⟩ := wf_no_all_disj hK
  rw [Nat.and_comm] at h1 h2
  rw [or_and_of_disj (wf_fmt_disj hK hf)]
  cases s <;> cases d <;> simp [or_and_of_disj, h1, h2]

/-- Claim C1. With `--only-METHOD` given and `--fast` not, a successful `validate_args`
leaves in `flags_final` every method's disable bit set except exactly the bits named by
`flags_only`: `flags_final & TASKFLAG_NO_ALL == TASKFLAG_NO_ALL & ~flags_only`, whatever
the format and the `--use-`/`--no-` options. -/
theorem only_disables_all_but_named (K : Consts) (H : Host) (a : Arguments)
    (hK : K.WellFormed) (hfmt : a.flags_fmt ∈ K.formats)
    (honly : a.flags_only ≠ 0) (hfast : a.fast = false)
    (hret : (validate_args K H a).1 = 0) :
    (validate_args K H a).2.flags_final &&& K.TASKFLAG_NO_ALL
      = K.TASKFLAG_NO_ALL &&& not32 a.flags_only := by
  rw [(validate_args_zero K H a hret).1]
  unfold cleanup_flags
  simp only [hfast, honly, ne_eq, not_false_eq_true, if_true, Bool.false_eq_true, if_false]
  rw [tail_and_no_all hK hfmt, only_and]

/-- Claim C1 on `maxcso --format=zso --use-zopfli --no-zlib --only-zlib --only-lz4brute
--smallest --decompress a.cso`. -/
theorem only_disables_all_but_named_witness :
    maxcsoConsts.WellFormed ∧ onlyArgs.flags_fmt ∈ maxcsoConsts.formats ∧
    onlyArgs.flags_only ≠ 0 ∧ onlyArgs.fast = false ∧
    (validate_args maxcsoConsts sampleHost onlyArgs).1 = 0 ∧
    (validate_args maxcsoConsts sampleHost onlyArgs).2.flags_final
        &&& maxcsoConsts.TASKFLAG_NO_ALL
      = maxcsoConsts.TASKFLAG_NO_ALL &&& not32 onlyArgs.flags_only :=
  ⟨maxcsoConsts_wf, by decide, by decide, rfl, by decide,
    only_disables_all_but_named maxcsoConsts sampleHost onlyArgs maxcsoConsts_wf
      (by decide) (by decide) rfl (by decide)⟩

/-- The format bits are non-zero and pairwise disjoint. -/
theorem wf_fmt_facts {K : Consts} (hK : K.WellFormed) :
    K.TASKFLAG_FMT_CSO_2 ≠ 0 ∧ K.TASKFLAG_FMT_ZSO ≠ 0 ∧ K.TASKFLAG_FMT_DAX ≠ 0 ∧
    K.TASKFLAG_FMT_CSO_2 &&& K.TASKFLAG_FMT_ZSO = 0 ∧
    K.TASKFLAG_FMT_CSO_2 &&& K.TASKFLAG_FMT_DAX = 0 ∧
    K.TASKFLAG_FMT_ZSO &&& K.TASKFLAG_FMT_DAX = 0 := by
  have h := hK.disjoint
  have hs := hK.single
  simp only [Consts.methodBits, Consts.otherBits, List.cons_append, List.nil_append,
    List.pairwise_cons, List.mem_cons, forall_eq_or_imp, List.mem_singleton, forall_eq] at h hs
  obtain ⟨-, -, -, -, -, -, -, -, -, ⟨k1, -, e1⟩, ⟨k2, -, e2⟩, ⟨k3, -, e3⟩, -⟩ := hs
  refine ⟨?_, ?_, ?_, ?_, ?_, ?_⟩
  · rw [e1]; exact Nat.pos_iff_ne_zero.mp (Nat.pow_pos (by decide))
  · rw [e2]; exact Nat.pos_iff_ne_zero.mp (Nat.pow_pos (by decide))
  · rw [e3]; exact Nat.pos_iff_ne_zero.mp (Nat.pow_pos (by decide))
  · simp [h]
  · simp [h]
  · simp [h]

/-- On a format value of `parse_args`, the format tests of `validate_args` (a bit test
for cso2, then one for zso) select by the format's name. -/
theorem format_branch {K : Consts} (hK : K.WellFormed) {fmt : Nat} (hf : fmt ∈ K.formats)
    {α : Type} (x y z : α) :
    (if fmt &&& K.TASKFLAG_FMT_CSO_2 ≠ 0 then x
      else if fmt &&& K.TASKFLAG_FMT_ZSO ≠ 0 then y else z)
    = (if fmt = K.TASKFLAG_FMT_CSO_2 then x
      else if fmt = K.TASKFLAG_FMT_ZSO then y else z) := by
  obtain ⟨n1, n2, n3, d12, d13, d23⟩ := wf_fmt_facts hK
  have d21 : K.TASKFLAG_FMT_ZSO &&& K.TASKFLAG_FMT_CSO_2 = 0 := by rw [Nat.and_comm]; exact d12
  have d31 : K.TASKFLAG_FMT_DAX &&& K.TASKFLAG_FMT_CSO_2 = 0 := by rw [Nat.and_comm]; exact d13
  have d32 : K.TASKFLAG_FMT_DAX &&& K.TASKFLAG_FMT_ZSO = 0 := by rw [Nat.and_comm]; exact d23
  have e21 : K.TASKFLAG_FMT_ZSO ≠ K.TASKFLAG_FMT_CSO_2 := by
    intro e; rw [e, Nat.and_self] at d21; exact n1 d21
  have e31 : K.TASKFLAG_FMT_DAX ≠ K.TASKFLAG_FMT_CSO_2 := by
    intro e; rw [e, Nat.and_self] at d31; exact n1 d31
  have e32 : K.TASKFLAG_FMT_DAX ≠ K.TASKFLAG_FMT_ZSO := by
    intro e; rw [e, Nat.and_self] at d32; exact n2 d32
  simp only [Consts.formats, List.mem_cons, List.mem_singleton] at hf
  rcases hf with rfl | rfl | rfl | rfl | hf
  · simp [n1.symm, n2.symm]
  · simp [n1]
  · simp [d21, n2, e21]
  · simp [d31, d32, e31, e32]
  · simp at hf

/-- Every default disabled set lies within `TASKFLAG_NO_ALL`. -/
theorem default_disabled_sub {K : Consts} (hK : K.WellFormed) (fmt : Nat) :
    spec_default_disabled K fmt &&& K.TASKFLAG_NO_ALL = spec_default_disabled K fmt := by
  unfold spec_default_disabled
  rw [hK.no_all, hK.no_lz4, hK.no_zlib]
  split_ifs
  all_goals
    apply Nat.eq_of_testBit_eq; intro i
    simp only [Nat.testBit_and, Nat.testBit_or]
    cases K.TASKFLAG_NO_ZLIB_DEFAULT.testBit i <;> cases K.TASKFLAG_NO_ZLIB_BRUTE.testBit i <;>
    cases K.TASKFLAG_NO_ZOPFLI.testBit i <;> cases K.TASKFLAG_NO_7ZIP.testBit i <;>
    cases K.TASKFLAG_NO_LZ4_DEFAULT.testBit i <;> cases K.TASKFLAG_NO_LZ4_HC.testBit i <;>
    cases K.TASKFLAG_NO_LZ4_HC_BRUTE.testBit i <;> rfl

/-- The disable bits of `flags_final` when neither `--only-METHOD` nor `--fast` is
given: the format's defaults, minus `flags_use`, plus `flags_no`. -/
theorem cleanup_flags_plain {K : Consts} (hK : K.WellFormed) (a : Arguments)
    (hfmt : a.flags_fmt ∈ K.formats) (honly : a.flags_only = 0) (hfast : a.fast = false) :
    cleanup_flags K a &&& K.TASKFLAG_NO_ALL
      = ((spec_default_disabled K a.flags_fmt &&& not32 a.flags_use) ||| a.flags_no)
          &&& K.TASKFLAG_NO_ALL := by
  unfold cleanup_flags
  simp only [hfast, honly, ne_eq, not_true_eq_false, if_false, Bool.false_eq_true]
  rw [tail_and_no_all hK hfmt]
  have := format_branch hK hfmt (K.TASKFLAG_NO_ZOPFLI ||| K.TASKFLAG_NO_LZ4_HC_BRUTE)
    (K.TASKFLAG_NO_ZLIB ||| K.TASKFLAG_NO_7ZIP ||| K.TASKFLAG_NO_ZOPFLI
      ||| K.TASKFLAG_NO_LZ4_HC_BRUTE) (K.TASKFLAG_NO_ZOPFLI ||| K.TASKFLAG_NO_LZ4)
  simp only [ne_eq] at this
  rw [this]
  rfl

theorem sub_and_or {d u n A : Nat} (hd : d &&& A = d) (hn : n &&& A = n) :
    ((d &&& u) ||| n) &&& A = (d &&& u) ||| n := by
  apply Nat.eq_of_testBit_eq; intro i
  have h1 := congrArg (fun x => x.testBit i) hd
  have h2 := congrArg (fun x => x.testBit i) hn
  simp only [Nat.testBit_and, Nat.testBit_or] at h1 h2 ⊢
  revert h1 h2
  cases d.testBit i <;> cases u.testBit i <;> cases n.testBit i <;> cases A.testBit i <;>
    simp

/-- The value `cleanup_flags` computes contains `flags_no` when `flags_only` is 0. -/
theorem cleanup_flags_no (K : Consts) (a : Arguments) (honly : a.flags_only = 0) :
    cleanup_flags K a &&& a.flags_no = a.flags_no := by
  unfold cleanup_flags
  simp only [honly, ne_eq, not_true_eq_false, if_false]
  apply Nat.eq_of_testBit_eq; intro i
  cases a.fast <;> cases a.smallest <;> cases a.decompress <;>
    simp only [Nat.testBit_and, Nat.testBit_or, if_true, if_false, Bool.false_eq_true] <;>
    cases a.flags_no.testBit i <;> simp

/-- Claim C2. Without `--only-METHOD` and `--fast`, a successful `validate_args` leaves
as disable bits of `flags_final` the format's default disabled set with the `--use-`
methods removed and the `--no-` methods added: `flags_final & TASKFLAG_NO_ALL ==
(D & ~flags_use) | flags_no`. A method named by both `--use-` and `--no-` ends up
disabled. -/
theorem use_then_no_resolution (K : Consts) (H : Host) (a : Arguments)
    (hK : K.WellFormed) (hfmt : a.flags_fmt ∈ K.formats)
    (hno : a.flags_no &&& K.TASKFLAG_NO_ALL = a.flags_no)
    (honly : a.flags_only = 0) (hfast : a.fast = false)
    (hret : (validate_args K H a).1 = 0) :
    (validate_args K H a).2.flags_final &&& K.TASKFLAG_NO_ALL
        = (spec_default_disabled K a.flags_fmt &&& not32 a.flags_use) ||| a.flags_no ∧
      ∀ m : Nat, m &&& a.flags_use = m → m &&& a.flags_no = m →
        (validate_args K H a).2.flags_final &&& m = m := by
  rw [(validate_args_zero K H a hret).1]
  refine ⟨?_, ?_⟩
  · rw [cleanup_flags_plain hK a hfmt honly hfast]
    exact sub_and_or (default_disabled_sub hK _) hno
  · intro m _ hm
    have h := cleanup_flags_no K a honly
    apply Nat.eq_of_testBit_eq; intro i
    have h1 := congrArg (fun x => x.testBit i) h
    have h2 := congrArg (fun x => x.testBit i) hm
    simp only [Nat.testBit_and] at h1 h2 ⊢
    revert h1 h2
    cases (cleanup_flags K a).testBit i <;> cases m.testBit i <;>
      cases a.flags_no.testBit i <;> simp

/-- Claim C2 on `maxcso --format=zso --use-zlib --no-zlib --use-lz4brute a.iso`: zlib, named
by both options, ends up disabled. -/
theorem use_then_no_resolution_witness :
    useNoArgs.flags_only = 0 ∧ useNoArgs.fast = false ∧
    (validate_args maxcsoConsts sampleHost useNoArgs).1 = 0 ∧
    (validate_args maxcsoConsts sampleHost useNoArgs).2.flags_final
          &&& maxcsoConsts.TASKFLAG_NO_ALL
        = (spec_default_disabled maxcsoConsts useNoArgs.flags_fmt
            &&& not32 useNoArgs.flags_use) ||| useNoArgs.flags_no ∧
    (validate_args maxcsoConsts sampleHost useNoArgs).2.flags_final
          &&& maxcsoConsts.TASKFLAG_NO_ZLIB = maxcsoConsts.TASKFLAG_NO_ZLIB :=
  have h := use_then_no_resolution maxcsoConsts sampleHost useNoArgs maxcsoConsts_wf
    (by decide) (by decide) rfl rfl (by decide)
  ⟨rfl, rfl, by decide, h.1, h.2 maxcsoConsts.TASKFLAG_NO_ZLIB (by decide) (by decide)⟩

/-- Every basic constant fits in 32 bits. -/
theorem wf_lt {K : Consts} (hK : K.WellFormed) {m : Nat}
    (hm : m ∈ K.methodBits ++ K.otherBits) : m < 2 ^ 32 := by
  obtain ⟨k, hk, rfl⟩ := hK.single m hm
  exact Nat.pow_lt_pow_right (by decide) hk

theorem and_not32_zero {x : Nat} (h : x < 2 ^ 32) : x &&& not32 0 = x := by
  unfold not32
  rw [Nat.zero_mod, Nat.xor_zero]
  exact Nat.and_pow_two_sub_one_of_lt_two_pow h

/-- Claim C3. With the default format (cso1) and none of `--use-`, `--no-`, `--only-`,
`--fast`, a successful `validate_args` disables exactly zopfli and the lz4 tiers:
`flags_final & TASKFLAG_NO_ALL == TASKFLAG_NO_ZOPFLI | TASKFLAG_NO_LZ4`, so zlib and
7zdeflate are the methods left enabled. -/
theorem default_methods_zlib_7zdeflate (K : Consts) (H : Host) (a : Arguments)
    (hK : K.WellFormed) (hfmt : a.flags_fmt = 0) (huse : a.flags_use = 0)
    (hno : a.flags_no = 0) (honly : a.flags_only = 0) (hfast : a.fast = false)
    (hret : (validate_args K H a).1 = 0) :
    (validate_args K H a).2.flags_final &&& K.TASKFLAG_NO_ALL
      = K.TASKFLAG_NO_ZOPFLI ||| K.TASKFLAG_NO_LZ4 := by
  obtain ⟨n1, n2, -⟩ := wf_fmt_facts hK
  have hmem : a.flags_fmt ∈ K.formats := by rw [hfmt]; simp [Consts.formats]
  have hD : spec_default_disabled K a.flags_fmt
      = K.TASKFLAG_NO_ZOPFLI ||| K.TASKFLAG_NO_LZ4 := by
    rw [hfmt]; unfold spec_default_disabled; simp [n1.symm, n2.symm]
  have hlt : K.TASKFLAG_NO_ZOPFLI ||| K.TASKFLAG_NO_LZ4 < 2 ^ 32 := by
    rw [hK.no_lz4]
    refine Nat.or_lt_two_pow (wf_lt hK ?_)
      (Nat.or_lt_two_pow (Nat.or_lt_two_pow (wf_lt hK ?_) (wf_lt hK ?_)) (wf_lt hK ?_)) <;>
      simp [Consts.methodBits]
  rw [(validate_args_zero K H a hret).1, cleanup_flags_plain hK a hmem honly hfast,
    sub_and_or (default_disabled_sub hK _) (by rw [hno]; simp), hD, huse, hno,
    and_not32_zero hlt, Nat.or_zero]

/-- Claim C3 on `maxcso a.iso`. -/
theorem default_methods_zlib_7zdeflate_witness :
    (validate_args maxcsoConsts sampleHost plainArgs).1 = 0 ∧
    (validate_args maxcsoConsts sampleHost plainArgs).2.flags_final
        &&& maxcsoConsts.TASKFLAG_NO_ALL
      = maxcsoConsts.TASKFLAG_NO_ZOPFLI ||| maxcsoConsts.TASKFLAG_NO_LZ4 :=
  ⟨by decide, default_methods_zlib_7zdeflate maxcsoConsts sampleHost plainArgs
    maxcsoConsts_wf rfl rfl rfl rfl rfl (by decide)⟩

theorem contains_or_left {x m : Nat} (y : Nat) (h : x &&& m = m) : (x ||| y) &&& m = m := by
  rw [or_and_right, h]
  apply Nat.eq_of_testBit_eq; intro i
  simp only [Nat.testBit_and, Nat.testBit_or]
  cases m.testBit i <;> simp

theorem contains_or_right {y m : Nat} (x : Nat) (h : y &&& m = m) : (x ||| y) &&& m = m := by
  rw [Nat.or_comm]; exact contains_or_left x h

/-- The last three steps of `cleanup_flags` (force, decompress, format) only add bits. -/
theorem tail_contains (K : Consts) (fmt f : Nat) (s d : Bool) {m : Nat} (h : f &&& m = m) :
    ((if d then (if s then f ||| K.TASKFLAG_FORCE_ALL else f) ||| K.TASKFLAG_DECOMPRESS
        else (if s then f ||| K.TASKFLAG_FORCE_ALL else f)) ||| fmt) &&& m = m := by
  apply contains_or_left
  cases s <;> cases d <;> simp [contains_or_left, h]

/-- Claim C4. With `--fast`, a successful `validate_args` leaves in `flags_final` the
disable bits of brute-force zlib, zopfli, 7zdeflate, lz4hc and brute-force lz4hc, also
when a `--use-METHOD` or `--only-METHOD` option named one of them: only basic zlib and
default lz4 can remain enabled. -/
theorem fast_disables_slow_methods (K : Consts) (H : Host) (a : Arguments)
    (hfast : a.fast = true) (hret : (validate_args K H a).1 = 0) :
    (validate_args K H a).2.flags_final &&& K.TASKFLAG_NO_ZLIB_BRUTE
        = K.TASKFLAG_NO_ZLIB_BRUTE ∧
    (validate_args K H a).2.flags_final &&& K.TASKFLAG_NO_ZOPFLI = K.TASKFLAG_NO_ZOPFLI ∧
    (validate_args K H a).2.flags_final &&& K.TASKFLAG_NO_7ZIP = K.TASKFLAG_NO_7ZIP ∧
    (validate_args K H a).2.flags_final &&& K.TASKFLAG_NO_LZ4_HC = K.TASKFLAG_NO_LZ4_HC ∧
    (validate_args K H a).2.flags_final &&& K.TASKFLAG_NO_LZ4_HC_BRUTE
        = K.TASKFLAG_NO_LZ4_HC_BRUTE := by
  rw [(validate_args_zero K H a hret).1]
  unfold cleanup_flags
  simp only [hfast, if_true]
  refine ⟨?_, ?_, ?_, ?_, ?_⟩ <;> apply tail_contains <;> apply contains_or_right
  · exact contains_or_left _ (contains_or_left _ (contains_or_left _
      (contains_or_left _ (Nat.and_self _))))
  · exact contains_or_left _ (contains_or_left _ (contains_or_left _
      (contains_or_right _ (Nat.and_self _))))
  · exact contains_or_left _ (contains_or_left _ (contains_or_right _ (Nat.and_self _)))
  · exact contains_or_right _ (Nat.and_self _)
  · exact contains_or_left _ (contains_or_right _ (Nat.and_self _))

/-- Claim C4 on `maxcso --fast --use-zopfli --only-7zdeflate a.iso`. -/
theorem fast_disables_slow_methods_witness :
    fastArgs.fast = true ∧ (validate_args maxcsoConsts sampleHost fastArgs).1 = 0 ∧
    (validate_args maxcsoConsts sampleHost fastArgs).2.flags_final &&& 0x002 = 0x002 ∧
    (validate_args maxcsoConsts sampleHost fastArgs).2.flags_final &&& 0x004 = 0x004 ∧
    (validate_args maxcsoConsts sampleHost fastArgs).2.flags_final &&& 0x008 = 0x008 ∧
    (validate_args maxcsoConsts sampleHost fastArgs).2.flags_final &&& 0x100 = 0x100 ∧
    (validate_args maxcsoConsts sampleHost fastArgs).2.flags_final &&& 0x200 = 0x200 :=
  ⟨rfl, by decide,
    fast_disables_slow_methods maxcsoConsts sampleHost fastArgs rfl (by decide)⟩

/-! ## What the return code of `validate_args` depends on -/

theorem detect_threads_fields (H : Host) (a : Arguments) :
    (detect_threads H a).inputs = a.inputs ∧ (detect_threads H a).outputs = a.outputs ∧
    (detect_threads H a).output_path = a.output_path ∧
    (detect_threads H a).crc = a.crc ∧ (detect_threads H a).decompress = a.decompress ∧
    (detect_threads H a).flags_fmt = a.flags_fmt ∧
    (detect_threads H a).block_size = a.block_size ∧
    cleanup_flags K (detect_threads H a) = cleanup_flags K a := by
  unfold detect_threads
  split_ifs
  · exact ⟨rfl, rfl, rfl, rfl, rfl, rfl, rfl, rfl⟩
  · exact ⟨rfl, rfl, rfl, rfl, rfl, rfl, rfl, rfl⟩

theorem auto_outputs_congr (K : Consts) (H : Host) (b c : Arguments)
    (h1 : b.inputs = c.inputs) (h2 : b.outputs = c.outputs)
    (h3 : b.output_path = c.output_path) (h4 : b.decompress = c.decompress)
    (h5 : b.flags_fmt = c.flags_fmt) : auto_outputs K H b = auto_outputs K H c := by
  have hf : auto_output K H b = auto_output K H c := by
    funext input
    simp only [auto_output, outputExt, h3, h4, h5]
  simp only [auto_outputs, hf, h1, h2]

/-- The code `validate_flags` returns depends on the record through `inputs`,
`block_size`, `flags_fmt` and the DEFLATE bits of the cleaned-up flags only. -/
theorem validate_flags_code_congr (K : Consts) (b c : Arguments)
    (h1 : b.inputs = c.inputs) (h2 : b.block_size = c.block_size)
    (h3 : b.flags_fmt = c.flags_fmt)
    (h4 : cleanup_flags K b &&& deflateFlags K = cleanup_flags K c &&& deflateFlags K) :
    (validate_flags K b).1 = (validate_flags K c).1 := by
  unfold validate_flags
  simp only [h1, h2, h3, h4]
  split_ifs <;> rfl

/-- The code `validate_args` returns depends on the flag fields through `flags_fmt` and
the DEFLATE bits of the cleaned-up flags only. -/
theorem validate_args_code_congr (K : Consts) (H : Host) (a c : Arguments)
    (h1 : a.inputs = c.inputs) (h2 : a.outputs = c.outputs)
    (h3 : a.output_path = c.output_path) (h4 : a.crc = c.crc)
    (h5 : a.decompress = c.decompress) (h6 : a.flags_fmt = c.flags_fmt)
    (h7 : a.block_size = c.block_size)
    (h8 : cleanup_flags K a &&& deflateFlags K = cleanup_flags K c &&& deflateFlags K) :
    (validate_args K H a).1 = (validate_args K H c).1 := by
  obtain ⟨a1, a2, a3, a4, a5, a6, a7, a8⟩ := @detect_threads_fields K H a
  obtain ⟨c1, c2, c3, c4, c5, c6, c7, c8⟩ := @detect_threads_fields K H c
  rw [← a8, ← c8] at h8
  rw [← a1, ← c1] at h1
  rw [← a2, ← c2] at h2
  rw [← a3, ← c3] at h3
  rw [← a4, ← c4] at h4
  rw [← a5, ← c5] at h5
  rw [← a6, ← c6] at h6
  rw [← a7, ← c7] at h7
  unfold validate_args
  simp only
  generalize detect_threads H a = b at h1 h2 h3 h4 h5 h6 h7 h8
  generalize detect_threads H c = d at h1 h2 h3 h4 h5 h6 h7 h8
  have ho := auto_outputs_congr K H b d h1 h2 h3 h5 h6
  simp only [h1, h2, h4, ho]
  split_ifs
  · rfl
  · rfl
  · exact validate_flags_code_congr K _ _ h1 h7 h6 h8
  · rfl
  · refine validate_flags_code_congr K _ _ rfl h7 h6 ?_
    simp only [cleanup_flags] at h8 ⊢
    exact h8

/-- The DEFLATE mask of the DAX check lies within `TASKFLAG_NO_ALL`. -/
theorem deflate_sub {K : Consts} (hK : K.WellFormed) :
    deflateFlags K &&& K.TASKFLAG_NO_ALL = deflateFlags K := by
  unfold deflateFlags
  rw [hK.no_all, hK.no_lz4, hK.no_zlib]
  apply Nat.eq_of_testBit_eq; intro i
  simp only [Nat.testBit_and, Nat.testBit_or]
  cases K.TASKFLAG_NO_ZLIB_DEFAULT.testBit i <;> cases K.TASKFLAG_NO_ZLIB_BRUTE.testBit i <;>
  cases K.TASKFLAG_NO_ZOPFLI.testBit i <;> cases K.TASKFLAG_NO_7ZIP.testBit i <;>
  cases K.TASKFLAG_NO_LZ4_DEFAULT.testBit i <;> cases K.TASKFLAG_NO_LZ4_HC.testBit i <;>
  cases K.TASKFLAG_NO_LZ4_HC_BRUTE.testBit i <;> rfl

theorem and_sub_congr {x y d A : Nat} (h : x &&& A = y &&& A) (hd : d &&& A = d) :
    x &&& d = y &&& d := by
  apply Nat.eq_of_testBit_eq; intro i
  have h1 := congrArg (fun n => n.testBit i) h
  have h2 := congrArg (fun n => n.testBit i) hd
  simp only [Nat.testBit_and] at h1 h2 ⊢
  revert h1 h2
  cases x.testBit i <;> cases y.testBit i <;> cases d.testBit i <;> cases A.testBit i <;>
    simp

theorem or_and_congr {x y A : Nat} (z : Nat) (h : x &&& A = y &&& A) :
    (x ||| z) &&& A = (y ||| z) &&& A := by
  rw [or_and_right, h, ← or_and_right]

/-- With `--only-METHOD` given, the disable bits of the cleaned-up flags do not depend
on `flags_no`. -/
theorem cleanup_flags_only_no {K : Consts} (hK : K.WellFormed) (a : Arguments)
    (hfmt : a.flags_fmt ∈ K.formats) (honly : a.flags_only ≠ 0) (n : Nat) :
    cleanup_flags K a &&& K.TASKFLAG_NO_ALL
      = cleanup_flags K { a with flags_no := n } &&& K.TASKFLAG_NO_ALL := by
  unfold cleanup_flags
  simp only [honly, ne_eq, not_false_eq_true, if_true]
  rw [tail_and_no_all hK hfmt, tail_and_no_all hK hfmt]
  cases a.fast
  · simp only [Bool.false_eq_true, if_false]
    rw [only_and, only_and]
  · simp only [if_true]
    refine or_and_congr _ ?_
    rw [only_and, only_and]

/-- Claim C5, amended. When `--only-METHOD` is given, also for a method that
`--no-METHOD` excludes, `--only` takes precedence: the code `validate_args` returns is
the one it returns with `flags_no` cleared, so the conflict raises no configuration
error, and when it returns 0 without `--fast` the methods named by `flags_only` are
enabled in `flags_final`. -/
theorem only_overrides_no (K : Consts) (H : Host) (a : Arguments)
    (hK : K.WellFormed) (hfmt : a.flags_fmt ∈ K.formats) (honly : a.flags_only ≠ 0) :
    (validate_args K H a).1 = (validate_args K H { a with flags_no := 0 }).1 ∧
    ((validate_args K H a).1 = 0 → a.fast = false →
      (validate_args K H a).2.flags_final
        &&& (K.TASKFLAG_NO_ALL &&& a.flags_only) = 0) := by
  refine ⟨?_, ?_⟩
  · exact validate_args_code_congr K H a _ rfl rfl rfl rfl rfl rfl rfl
      (and_sub_congr (cleanup_flags_only_no hK a hfmt honly 0) (deflate_sub hK))
  · intro hret hfast
    have h : (validate_args K H a).2.flags_final &&& K.TASKFLAG_NO_ALL
        = K.TASKFLAG_NO_ALL &&& not32 a.flags_only := by
      rw [(validate_args_zero K H a hret).1]
      unfold cleanup_flags
      simp only [hfast, honly, ne_eq, not_false_eq_true, if_true, Bool.false_eq_true,
        if_false]
      rw [tail_and_no_all hK hfmt, only_and]
    rw [← Nat.and_assoc, h]
    apply Nat.eq_of_testBit_eq; intro i
    simp only [Nat.testBit_and, testBit_not32, Nat.zero_testBit]
    cases K.TASKFLAG_NO_ALL.testBit i <;> cases a.flags_only.testBit i <;> simp

/-- Claim C5, amended, on `maxcso --only-zlib --no-zlib a.iso`. -/
theorem only_overrides_no_witness :
    onlyNoArgs.flags_only ≠ 0 ∧
    onlyNoArgs.flags_only &&& onlyNoArgs.flags_no = onlyNoArgs.flags_only ∧
    (validate_args maxcsoConsts sampleHost onlyNoArgs).1
      = (validate_args maxcsoConsts sampleHost { onlyNoArgs with flags_no := 0 }).1 ∧
    (validate_args maxcsoConsts sampleHost onlyNoArgs).2.flags_final
        &&& (maxcsoConsts.TASKFLAG_NO_ALL &&& onlyNoArgs.flags_only) = 0 :=
  have h := only_overrides_no maxcsoConsts sampleHost onlyNoArgs maxcsoConsts_wf
    (by decide) (by decide)
  ⟨by decide, by decide, h.1, h.2 (by decide) rfl⟩

/-- Claim C5 as stated fails: for `maxcso --only-zlib --no-zlib a.iso`, where `--only`
names exactly the method `--no` excludes, `validate_args` returns 0, zlib is enabled in
`flags_final`, and `main` builds a task. -/
theorem only_excluded_by_no_counterexample :
    onlyNoArgs.flags_only ≠ 0 ∧
    onlyNoArgs.flags_only &&& onlyNoArgs.flags_no = onlyNoArgs.flags_only ∧
    (validate_args maxcsoConsts sampleHost onlyNoArgs).1 = 0 ∧
    (validate_args maxcsoConsts sampleHost onlyNoArgs).2.flags_final
        &&& maxcsoConsts.TASKFLAG_NO_ZLIB = 0 ∧
    (main_tasks maxcsoConsts sampleHost onlyNoArgs).map List.length = some 1 := by
  decide

/-- Claim C6, amended. For the DAX format, Arguments whose flag resolution leaves no
method permitted (the cleaned-up flags contain all of `TASKFLAG_NO_ALL`) are rejected:
`validate_args` returns non-zero and `main` builds no task. -/
theorem dax_no_method_rejected (K : Consts) (H : Host) (a : Arguments)
    (hK : K.WellFormed) (hdax : a.flags_fmt &&& K.TASKFLAG_FMT_DAX ≠ 0)
    (hall : cleanup_flags K a &&& K.TASKFLAG_NO_ALL = K.TASKFLAG_NO_ALL) :
    (validate_args K H a).1 ≠ 0 ∧ main_tasks K H a = none := by
  have hne : (validate_args K H a).1 ≠ 0 := by
    intro hret
    apply ((validate_args_zero K H a hret).2.2 hdax).2
    have hd := deflate_sub hK
    apply Nat.eq_of_testBit_eq; intro i
    have h1 := congrArg (fun n => n.testBit i) hall
    have h2 := congrArg (fun n => n.testBit i) hd
    simp only [Nat.testBit_and] at h1 h2 ⊢
    revert h1 h2
    cases (cleanup_flags K a).testBit i <;> cases (deflateFlags K).testBit i <;>
      cases K.TASKFLAG_NO_ALL.testBit i <;> simp
  exact ⟨hne, by simp [main_tasks, hne]⟩

/-- Claim C6, amended, on `maxcso --format=dax --no-zlib --no-7zdeflate a.iso`. -/
theorem dax_no_method_rejected_witness :
    daxNoDeflateArgs.flags_fmt &&& maxcsoConsts.TASKFLAG_FMT_DAX ≠ 0 ∧
    cleanup_flags maxcsoConsts daxNoDeflateArgs &&& maxcsoConsts.TASKFLAG_NO_ALL
      = maxcsoConsts.TASKFLAG_NO_ALL ∧
    (validate_args maxcsoConsts sampleHost daxNoDeflateArgs).1 ≠ 0 ∧
    main_tasks maxcsoConsts sampleHost daxNoDeflateArgs = none :=
  ⟨by decide, by decide,
    dax_no_method_rejected maxcsoConsts sampleHost daxNoDeflateArgs maxcsoConsts_wf
      (by decide) (by decide)⟩

/-- Claim C6 as stated fails: for `maxcso --no-zlib --no-7zdeflate a.iso` (cso1) the
flag resolution leaves no method permitted, yet `validate_args` returns 0 and `main`
builds a task. -/
theorem no_method_accepted_counterexample :
    (validate_args maxcsoConsts sampleHost noDeflateArgs).2.flags_final
        &&& maxcsoConsts.TASKFLAG_NO_ALL = maxcsoConsts.TASKFLAG_NO_ALL ∧
    (validate_args maxcsoConsts sampleHost noDeflateArgs).1 = 0 ∧
    (main_tasks maxcsoConsts sampleHost noDeflateArgs).map List.length = some 1 := by
  decide

/-- The methods a format does not support are among its default disabled ones. -/
theorem unsupported_sub_default {K : Consts} (hK : K.WellFormed) (fmt : Nat) :
    spec_unsupported K fmt &&& spec_default_disabled K fmt = spec_unsupported K fmt := by
  obtain ⟨n1, n2, n3, d12, d13, d23⟩ := wf_fmt_facts hK
  have e21 : K.TASKFLAG_FMT_ZSO ≠ K.TASKFLAG_FMT_CSO_2 := by
    intro e; rw [e, Nat.and_self] at d12; exact n1 d12
  unfold spec_unsupported spec_default_disabled
  by_cases h2 : fmt = K.TASKFLAG_FMT_ZSO
  · rw [if_pos h2, if_neg (by rw [h2]; exact e21), if_pos h2]
    apply Nat.eq_of_testBit_eq; intro i
    simp only [Nat.testBit_and, Nat.testBit_or]
    cases K.TASKFLAG_NO_ZLIB.testBit i <;> cases K.TASKFLAG_NO_ZOPFLI.testBit i <;>
      cases K.TASKFLAG_NO_7ZIP.testBit i <;> cases K.TASKFLAG_NO_LZ4_HC_BRUTE.testBit i <;> rfl
  · rw [if_neg h2]
    by_cases h1 : fmt = K.TASKFLAG_FMT_CSO_2
    · rw [if_pos h1, Nat.zero_and]
    · rw [if_neg h1, if_neg h1, if_neg h2]
      apply Nat.eq_of_testBit_eq; intro i
      simp only [Nat.testBit_and, Nat.testBit_or]
      cases K.TASKFLAG_NO_ZOPFLI.testBit i <;> cases K.TASKFLAG_NO_LZ4.testBit i <;> rfl

/-- The `--use-`, `--no-` and `--only-` steps keep disabled what is disabled by default
and named by neither `--use-` nor `--only-`. -/
theorem resolve_contains {D U : Nat} (hU : U &&& D = U) (u n A o : Nat) :
    ((D &&& not32 u) ||| n) &&& (U &&& not32 (u ||| o)) = U &&& not32 (u ||| o) ∧
    ((((D &&& not32 u) ||| n) ||| A) &&& not32 o) &&& (U &&& not32 (u ||| o))
      = U &&& not32 (u ||| o) := by
  refine ⟨?_, ?_⟩ <;>
  · apply Nat.eq_of_testBit_eq; intro i
    have h1 := congrArg (fun x => x.testBit i) hU
    simp only [Nat.testBit_and, Nat.testBit_or, testBit_not32] at h1 ⊢
    revert h1
    cases D.testBit i <;> cases U.testBit i <;> cases u.testBit i <;> cases n.testBit i <;>
      cases A.testBit i <;> cases o.testBit i <;> cases decide (i < 32) <;> simp

/-- Claim C7, amended. On a successful `validate_args`, `flags_final` has the disable
bit of every method the chosen format does not support (the lz4 tiers for cso1 and dax,
the DEFLATE methods for zso), except of those named by a `--use-METHOD` or
`--only-METHOD` option. -/
theorem unsupported_excluded_unless_named (K : Consts) (H : Host) (a : Arguments)
    (hK : K.WellFormed) (hfmt : a.flags_fmt ∈ K.formats)
    (hret : (validate_args K H a).1 = 0) :
    (validate_args K H a).2.flags_final
        &&& (spec_unsupported K a.flags_fmt &&& not32 (a.flags_use ||| a.flags_only))
      = spec_unsupported K a.flags_fmt &&& not32 (a.flags_use ||| a.flags_only) := by
  rw [(validate_args_zero K H a hret).1]
  have hb := format_branch hK hfmt (K.TASKFLAG_NO_ZOPFLI ||| K.TASKFLAG_NO_LZ4_HC_BRUTE)
    (K.TASKFLAG_NO_ZLIB ||| K.TASKFLAG_NO_7ZIP ||| K.TASKFLAG_NO_ZOPFLI
      ||| K.TASKFLAG_NO_LZ4_HC_BRUTE) (K.TASKFLAG_NO_ZOPFLI ||| K.TASKFLAG_NO_LZ4)
  have hr := resolve_contains (unsupported_sub_default hK a.flags_fmt) a.flags_use a.flags_no
    K.TASKFLAG_NO_ALL a.flags_only
  unfold spec_default_disabled at hr
  rw [← hb] at hr
  unfold cleanup_flags
  simp only
  apply tail_contains
  have hstep : (if a.flags_only ≠ 0 then
        ((if a.flags_fmt &&& K.TASKFLAG_FMT_CSO_2 ≠ 0 then
              K.TASKFLAG_NO_ZOPFLI ||| K.TASKFLAG_NO_LZ4_HC_BRUTE
            else if a.flags_fmt &&& K.TASKFLAG_FMT_ZSO ≠ 0 then
              K.TASKFLAG_NO_ZLIB ||| K.TASKFLAG_NO_7ZIP ||| K.TASKFLAG_NO_ZOPFLI
                ||| K.TASKFLAG_NO_LZ4_HC_BRUTE
            else K.TASKFLAG_NO_ZOPFLI ||| K.TASKFLAG_NO_LZ4) &&& not32 a.flags_use
          ||| a.flags_no ||| K.TASKFLAG_NO_ALL) &&& not32 a.flags_only
      else
        (if a.flags_fmt &&& K.TASKFLAG_FMT_CSO_2 ≠ 0 then
              K.TASKFLAG_NO_ZOPFLI ||| K.TASKFLAG_NO_LZ4_HC_BRUTE
            else if a.flags_fmt &&& K.TASKFLAG_FMT_ZSO ≠ 0 then
              K.TASKFLAG_NO_ZLIB ||| K.TASKFLAG_NO_7ZIP ||| K.TASKFLAG_NO_ZOPFLI
                ||| K.TASKFLAG_NO_LZ4_HC_BRUTE
            else K.TASKFLAG_NO_ZOPFLI ||| K.TASKFLAG_NO_LZ4) &&& not32 a.flags_use
          ||| a.flags_no)
        &&& (spec_unsupported K a.flags_fmt &&& not32 (a.flags_use ||| a.flags_only))
      = spec_unsupported K a.flags_fmt &&& not32 (a.flags_use ||| a.flags_only) := by
    by_cases ho : a.flags_only ≠ 0
    · rw [if_pos ho]; exact hr.2
    · rw [if_neg ho]; exact hr.1
  cases a.fast
  · simpa using hstep
  · simp only [if_true]
    exact contains_or_left _ hstep

/-- Claim C7, amended, on `maxcso --use-lz4 a.iso`: of the lz4 tiers, brute-force lz4hc, which
`--use-lz4` does not name, stays disabled. -/
theorem unsupported_excluded_unless_named_witness :
    (validate_args maxcsoConsts sampleHost useLz4Args).1 = 0 ∧
    (validate_args maxcsoConsts sampleHost useLz4Args).2.flags_final
        &&& (spec_unsupported maxcsoConsts useLz4Args.flags_fmt
          &&& not32 (useLz4Args.flags_use ||| useLz4Args.flags_only))
      = maxcsoConsts.TASKFLAG_NO_LZ4_HC_BRUTE :=
  ⟨by decide,
    (unsupported_excluded_unless_named maxcsoConsts sampleHost useLz4Args maxcsoConsts_wf
      (by decide) (by decide)).trans (by decide)⟩

/-- Claim C7 as stated fails: `maxcso --use-lz4 a.iso` (cso1) is accepted with the
default and hc tiers of lz4 enabled, and `maxcso --format=zso --only-zlib a.iso` is
accepted with zlib enabled. -/
theorem unsupported_method_enabled_counterexample :
    (useLz4Args.flags_fmt = 0 ∧
      (validate_args maxcsoConsts sampleHost useLz4Args).1 = 0 ∧
      (validate_args maxcsoConsts sampleHost useLz4Args).2.flags_final
        &&& (maxcsoConsts.TASKFLAG_NO_LZ4_DEFAULT ||| maxcsoConsts.TASKFLAG_NO_LZ4_HC) = 0) ∧
    (zsoOnlyZlibArgs.flags_fmt = maxcsoConsts.TASKFLAG_FMT_ZSO ∧
      (validate_args maxcsoConsts sampleHost zsoOnlyZlibArgs).1 = 0 ∧
      (validate_args maxcsoConsts sampleHost zsoOnlyZlibArgs).2.flags_final
        &&& maxcsoConsts.TASKFLAG_NO_ZLIB = 0) := by
  decide

/-- Claim C8. For the DAX format, a block size other than `DEFAULT_BLOCK_SIZE` makes
`validate_args` return non-zero, whatever the other fields; `main` then builds no
task. -/
theorem dax_block_size_rejected (K : Consts) (H : Host) (a : Arguments)
    (hdax : a.flags_fmt &&& K.TASKFLAG_FMT_DAX ≠ 0)
    (hblock : a.block_size ≠ K.DEFAULT_BLOCK_SIZE) :
    (validate_args K H a).1 ≠ 0 ∧ main_tasks K H a = none := by
  have hne : (validate_args K H a).1 ≠ 0 := fun hret =>
    hblock ((validate_args_zero K H a hret).2.2 hdax).1
  exact ⟨hne, by simp [main_tasks, hne]⟩

/-- Claim C8 on `maxcso --format=dax --block=4096 a.iso`. -/
theorem dax_block_size_rejected_witness :
    daxBlockArgs.flags_fmt &&& maxcsoConsts.TASKFLAG_FMT_DAX ≠ 0 ∧
    daxBlockArgs.block_size ≠ maxcsoConsts.DEFAULT_BLOCK_SIZE ∧
    (validate_args maxcsoConsts sampleHost daxBlockArgs).1 ≠ 0 ∧
    main_tasks maxcsoConsts sampleHost daxBlockArgs = none :=
  ⟨by decide, by decide,
    dax_block_size_rejected maxcsoConsts sampleHost daxBlockArgs (by decide) (by decide)⟩

/-- A one-bit mask is either clear or set in a value. -/
theorem bit_and_cases {m : Nat} (hm : ∃ k, k < 32 ∧ m = 2 ^ k) (x : Nat) :
    x &&& m = 0 ∨ x &&& m = m := by
  obtain ⟨k, -, rfl⟩ := hm
  cases h : x.testBit k
  · left
    apply Nat.eq_of_testBit_eq; intro i
    rw [Nat.testBit_and, Nat.testBit_two_pow, Nat.zero_testBit]
    by_cases hki : k = i
    · subst hki; simp [h]
    · simp [hki]
  · right
    apply Nat.eq_of_testBit_eq; intro i
    rw [Nat.testBit_and, Nat.testBit_two_pow]
    by_cases hki : k = i
    · subst hki; simp [h]
    · simp [hki]

theorem contains_union {x a b : Nat} (ha : x &&& a = a) (hb : x &&& b = b) :
    x &&& (a ||| b) = a ||| b := by
  rw [Nat.and_or_distrib_left, ha, hb]

/-- Claim C9. For the DAX format, a successful `validate_args` leaves at least one
DEFLATE method enabled: one of the bits `TASKFLAG_NO_ZLIB_DEFAULT`,
`TASKFLAG_NO_ZLIB_BRUTE`, `TASKFLAG_NO_ZOPFLI`, `TASKFLAG_NO_7ZIP` is clear in
`flags_final`. -/
theorem dax_keeps_a_deflate_method (K : Consts) (H : Host) (a : Arguments)
    (hK : K.WellFormed) (hdax : a.flags_fmt &&& K.TASKFLAG_FMT_DAX ≠ 0)
    (hret : (validate_args K H a).1 = 0) :
    (validate_args K H a).2.flags_final &&& K.TASKFLAG_NO_ZLIB_DEFAULT = 0 ∨
    (validate_args K H a).2.flags_final &&& K.TASKFLAG_NO_ZLIB_BRUTE = 0 ∨
    (validate_args K H a).2.flags_final &&& K.TASKFLAG_NO_ZOPFLI = 0 ∨
    (validate_args K H a).2.flags_final &&& K.TASKFLAG_NO_7ZIP = 0 := by
  obtain ⟨hfin, -, hd⟩ := validate_args_zero K H a hret
  rw [hfin]
  have hne := (hd hdax).2
  have hs := hK.single
  simp only [Consts.methodBits, Consts.otherBits, List.cons_append, List.nil_append,
    List.mem_cons, forall_eq_or_imp, List.mem_singleton, forall_eq] at hs
  obtain ⟨s1, s2, s3, s4, -⟩ := hs
  rcases bit_and_cases s1 (cleanup_flags K a) with h1 | h1
  · exact Or.inl h1
  rcases bit_and_cases s2 (cleanup_flags K a) with h2 | h2
  · exact Or.inr (Or.inl h2)
  rcases bit_and_cases s3 (cleanup_flags K a) with h3 | h3
  · exact Or.inr (Or.inr (Or.inl h3))
  rcases bit_and_cases s4 (cleanup_flags K a) with h4 | h4
  · exact Or.inr (Or.inr (Or.inr h4))
  exfalso
  apply hne
  unfold deflateFlags
  rw [hK.no_zlib]
  exact contains_union (contains_union (contains_union (contains_union
    (contains_union h1 h2) h1) h2) h3) h4

/-- Claim C9 on `maxcso --format=dax --no-zlib a.iso`. -/
theorem dax_keeps_a_deflate_method_witness :
    daxArgs.flags_fmt &&& maxcsoConsts.TASKFLAG_FMT_DAX ≠ 0 ∧
    (validate_args maxcsoConsts sampleHost daxArgs).1 = 0 ∧
    ((validate_args maxcsoConsts sampleHost daxArgs).2.flags_final
        &&& maxcsoConsts.TASKFLAG_NO_ZLIB_DEFAULT = 0 ∨
      (validate_args maxcsoConsts sampleHost daxArgs).2.flags_final
        &&& maxcsoConsts.TASKFLAG_NO_ZLIB_BRUTE = 0 ∨
      (validate_args maxcsoConsts sampleHost daxArgs).2.flags_final
        &&& maxcsoConsts.TASKFLAG_NO_ZOPFLI = 0 ∨
      (validate_args maxcsoConsts sampleHost daxArgs).2.flags_final
        &&& maxcsoConsts.TASKFLAG_NO_7ZIP = 0) :=
  ⟨by decide, by decide,
    dax_keeps_a_deflate_method maxcsoConsts sampleHost daxArgs maxcsoConsts_wf
      (by decide) (by decide)⟩

/-! ## The error callback and the result of `main` -/

theorem error_callback_result (K : Consts) (args : Arguments) (formatting : Bool)
    (st : MainState) (e : ErrorEvent) :
    (error_callback K args formatting st e).result
      = if e.status ≠ K.TASK_SUCCESS then 1 else st.result := by
  unfold error_callback
  by_cases h : e.status = K.TASK_SUCCESS <;> cases args.quiet <;> simp [h]

theorem run_errors_result (K : Consts) (args : Arguments) (formatting : Bool)
    (events : List ErrorEvent) (st : MainState) :
    (run_errors K args formatting st events).result
      = if ∃ e ∈ events, e.status ≠ K.TASK_SUCCESS then 1 else st.result := by
  induction events generalizing st with
  | nil => simp [run_errors]
  | cons e es ih =>
    have hstep : run_errors K args formatting st (e :: es)
        = run_errors K args formatting (error_callback K args formatting st e) es := rfl
    rw [hstep, ih, error_callback_result]
    by_cases h1 : e.status = K.TASK_SUCCESS
    · simp [h1]
    · by_cases h2 : ∃ e ∈ es, e.status ≠ K.TASK_SUCCESS
      · simp [h1, h2]
      · simp [h1, h2]

/-- Claim C10. Starting from `result = 0`, after any sequence of error-callback
invocations the result `main` returns is non-zero if some invocation carried a status
other than `TASK_SUCCESS`, and 0 if none did, with `--quiet` set or not. -/
theorem result_nonzero_iff_failure (K : Consts) (args : Arguments) (formatting : Bool)
    (st : MainState) (events : List ErrorEvent) (h0 : st.result = 0) :
    ((∃ e ∈ events, e.status ≠ K.TASK_SUCCESS) →
      (run_errors K args formatting st events).result ≠ 0) ∧
    ((∀ e ∈ events, e.status = K.TASK_SUCCESS) →
      (run_errors K args formatting st events).result = 0) := by
  rw [run_errors_result]
  refine ⟨?_, ?_⟩
  · intro h
    rw [if_pos h]
    decide
  · intro h
    rw [if_neg (by
      rintro ⟨e, he, hne⟩
      exact hne (h e he)), h0]

/-- Claim C10 on a success followed by a failure, with `--quiet`, and on the success alone,
without it. -/
theorem result_nonzero_iff_failure_witness :
    startState.result = 0 ∧
    (run_errors maxcsoConsts { plainArgs with quiet := true } false startState
      sampleEvents).result ≠ 0 ∧
    (run_errors maxcsoConsts plainArgs true startState (sampleEvents.take 1)).result = 0 :=
  ⟨rfl,
    (result_nonzero_iff_failure maxcsoConsts { plainArgs with quiet := true } false
      startState sampleEvents rfl).1 (by decide),
    (result_nonzero_iff_failure maxcsoConsts plainArgs true startState
      (sampleEvents.take 1) rfl).2 (by decide)⟩

/-! ## Checksum mode -/

/-- The record `validate_args` leaves when it returns 0 in checksum mode: the one it was
given, with `threads` detected and `flags_final` assigned. -/
theorem validate_args_crc (K : Consts) (H : Host) (a : Arguments) (hcrc : a.crc = true)
    (hret : (validate_args K H a).1 = 0) :
    a.outputs = [] ∧
    (validate_args K H a).2
      = { detect_threads H a with flags_final := cleanup_flags K (detect_threads H a) } := by
  have hc : (detect_threads H a).crc = true := by
    rw [(@detect_threads_fields K H a).2.2.2.1]; exact hcrc
  have ho : (detect_threads H a).outputs = a.outputs := (@detect_threads_fields K H a).2.1
  unfold validate_args at hret ⊢
  simp only at hret ⊢
  generalize detect_threads H a = b at hret hc ho ⊢
  by_cases h1 : b.inputs.length < b.outputs.length
  · simp [h1] at hret
  · by_cases h2 : b.outputs.length ≠ 0
    · simp [h1, hc, h2] at hret
    · rw [if_neg h1, if_pos hc, if_neg h2] at hret ⊢
      refine ⟨?_, ?_⟩
      · rw [← ho]
        exact List.length_eq_zero.mp (not_not.mp h2)
      · unfold validate_flags at hret ⊢
        by_cases h3 : b.inputs = []
        · simp [h3] at hret
        · rw [if_neg h3] at hret ⊢
          simp only at hret ⊢
          split_ifs at hret ⊢
          all_goals first
            | (exfalso; simp at hret; done)
            | rfl

/-- The task loop of `main` runs over the inputs in order. -/
theorem range_map_getD {α β : Type} (l : List α) (d : α) (f : α → β) :
    (List.range l.length).map (fun i => f (l.getD i d)) = l.map f := by
  apply List.ext_getElem
  · simp
  · intro n h1 h2
    simp only [List.length_map, List.length_range] at h1
    simp [h1]

/-- Claim C11. In checksum mode (`crc = true`) a successful `validate_args` has found
`args.outputs` empty and leaves it empty, and `main` builds one task per input, in
order, whose output is empty and which carries the input, `block_size`, `flags_final`
and the two cost percentages. -/
theorem crc_tasks_have_no_output (K : Consts) (H : Host) (a : Arguments)
    (hcrc : a.crc = true) (hret : (validate_args K H a).1 = 0) :
    a.outputs = [] ∧ (validate_args K H a).2.outputs = [] ∧
    main_tasks K H a = some (a.inputs.map fun input =>
      { input := input, output := [], block_size := a.block_size,
        flags := (validate_args K H a).2.flags_final,
        orig_max_cost_percent := a.orig_cost_percent,
        lz4_max_cost_percent := a.lz4_cost_percent }) := by
  obtain ⟨ho, hv⟩ := validate_args_crc K H a hcrc hret
  have hf : ∀ b : Arguments, b = detect_threads H a →
      b.inputs = a.inputs ∧ b.outputs = a.outputs ∧ b.crc = a.crc ∧
      b.block_size = a.block_size ∧ b.orig_cost_percent = a.orig_cost_percent ∧
      b.lz4_cost_percent = a.lz4_cost_percent := by
    intro b hb
    unfold detect_threads at hb
    split_ifs at hb <;> subst hb <;> simp
  obtain ⟨f1, f2, f3, f4, f5, f6⟩ := hf _ rfl
  refine ⟨ho, ?_, ?_⟩
  · rw [hv]; simp only; rw [f2, ho]
  · unfold main_tasks
    simp only [hret, ne_eq, not_true_eq_false, if_false, Option.some.injEq]
    unfold build_tasks
    rw [hv]
    simp only [f1, f3, f4, f5, f6, hcrc, Bool.not_true, Bool.false_eq_true, if_false]
    exact range_map_getD a.inputs [] (fun input =>
      ({ input := input, output := [], block_size := a.block_size,
         flags := cleanup_flags K (detect_threads H a),
         orig_max_cost_percent := a.orig_cost_percent,
         lz4_max_cost_percent := a.lz4_cost_percent } : Task))

/-- Claim C11 on `maxcso --crc --block=4096 --fast a.iso b.cso`: two tasks, without
outputs. -/
theorem crc_tasks_have_no_output_witness :
    crcArgs.crc = true ∧ (validate_args maxcsoConsts sampleHost crcArgs).1 = 0 ∧
    (validate_args maxcsoConsts sampleHost crcArgs).2.outputs = [] ∧
    (main_tasks maxcsoConsts sampleHost crcArgs).map (List.map Task.output) = some [[], []] ∧
    (main_tasks maxcsoConsts sampleHost crcArgs).map (List.map Task.input)
      = some ["a.iso".data, "b.cso".data] :=
  have h := crc_tasks_have_no_output maxcsoConsts sampleHost crcArgs rfl (by decide)
  ⟨rfl, by decide, h.2.1, by rw [h.2.2]; rfl, by rw [h.2.2]; rfl⟩

/-! ## Default output names -/

/-- A `filterMap` as long as its list has kept an element for every element. -/
theorem filterMap_full {α β : Type} (f : α → Option β) (l : List α)
    (h : (l.filterMap f).length = l.length) : (l.filterMap f).map some = l.map f := by
  induction l with
  | nil => rfl
  | cons x xs ih =>
    cases hfx : f x with
    | none =>
      rw [List.filterMap_cons_none hfx] at h
      have := List.length_filterMap_le f xs
      simp only [List.length_cons] at h
      omega
    | some y =>
      rw [List.filterMap_cons_some hfx] at h ⊢
      simp only [List.length_cons, Nat.add_right_cancel_iff] at h
      simp only [List.map_cons, hfx, ih h]

/-- The record `validate_args` leaves when it returns 0 outside checksum mode holds the
explicit outputs followed by the automatic ones, one output per input. -/
theorem validate_args_outputs (K : Consts) (H : Host) (a : Arguments) (hcrc : a.crc = false)
    (hret : (validate_args K H a).1 = 0) :
    (validate_args K H a).2.outputs = auto_outputs K H a ∧
    a.inputs.length = (auto_outputs K H a).length := by
  obtain ⟨f1, f2, f3, f4, f5, f6, -⟩ := @detect_threads_fields K H a
  have hc : ¬ (detect_threads H a).crc = true := by rw [f4, hcrc]; simp
  have hao := auto_outputs_congr K H (detect_threads H a) a f1 f2 f3 f5 f6
  unfold validate_args at hret ⊢
  simp only at hret ⊢
  generalize detect_threads H a = b at hret hc hao f1 ⊢
  by_cases h1 : b.inputs.length < b.outputs.length
  · simp [h1] at hret
  · rw [if_neg h1, if_neg hc] at hret ⊢
    by_cases h2 : b.inputs.length ≠ (auto_outputs K H b).length
    · simp [h2] at hret
    · rw [if_neg h2] at hret ⊢
      refine ⟨?_, ?_⟩
      · unfold validate_flags at hret ⊢
        simp only at hret ⊢
        rw [← hao]
        split_ifs at hret ⊢
        all_goals first
          | (exfalso; simp at hret; done)
          | rfl
      · rw [← hao, ← f1]
        exact not_not.mp h2

/-- When `validate_args` returns 0 outside checksum mode, the output of an input
without explicit output is what its turn of the naming loop pushed. -/
theorem validate_args_auto_output (K : Consts) (H : Host) (a : Arguments)
    (hcrc : a.crc = false) (hret : (validate_args K H a).1 = 0) (i : Nat) (input : Str)
    (hi : a.outputs.length ≤ i) (hin : a.inputs[i]? = some input) :
    (validate_args K H a).2.outputs[i]? = auto_output K H a input := by
  obtain ⟨ho, hlen⟩ := validate_args_outputs K H a hcrc hret
  rw [ho]
  unfold auto_outputs at hlen ⊢
  have hfull : ((a.inputs.drop a.outputs.length).filterMap (auto_output K H a)).length
      = (a.inputs.drop a.outputs.length).length := by
    simp only [List.length_append, List.length_drop] at hlen ⊢
    omega
  have hmap := filterMap_full _ _ hfull
  have hget := congrArg (fun l => l[i - a.outputs.length]?) hmap
  simp only [List.getElem?_map, List.getElem?_drop] at hget
  rw [Nat.add_sub_cancel' hi, hin] at hget
  rw [List.getElem?_append_right hi]
  simp only [Option.map_some'] at hget
  cases hq : ((a.inputs.drop a.outputs.length).filterMap (auto_output K H a))[
      i - a.outputs.length]? with
  | none => rw [hq] at hget; simp at hget
  | some y => rw [hq] at hget; simpa using hget

/-- On a format value of `parse_args`, the extension `validate_args` chooses is the
format's extension. -/
theorem outputExt_eq {K : Consts} (hK : K.WellFormed) (a : Arguments)
    (hf : a.flags_fmt ∈ K.formats) : outputExt K a = spec_format_ext K a.flags_fmt := by
  obtain ⟨n1, n2, n3, d12, d13, d23⟩ := wf_fmt_facts hK
  have e12 : K.TASKFLAG_FMT_CSO_2 ≠ K.TASKFLAG_FMT_ZSO := by
    intro e; rw [e, Nat.and_self] at d12; exact n2 d12
  have e13 : K.TASKFLAG_FMT_CSO_2 ≠ K.TASKFLAG_FMT_DAX := by
    intro e; rw [e, Nat.and_self] at d13; exact n3 d13
  have e23 : K.TASKFLAG_FMT_ZSO ≠ K.TASKFLAG_FMT_DAX := by
    intro e; rw [e, Nat.and_self] at d23; exact n3 d23
  unfold outputExt spec_format_ext
  simp only [Consts.formats, List.mem_cons, List.mem_singleton] at hf
  rcases hf with h | h | h | h | h
  · rw [h]; simp [n2.symm, n3.symm]
  · rw [h]; simp [d12, d13, e12, e13]
  · rw [h]; simp [d23, n2, e23]
  · rw [h]; simp [n3]
  · simp at h

/-- Claim C13. Outside checksum mode, with no `--output-path`, when `validate_args`
returns 0 an input without explicit output is longer than 4 characters and has got its
default output: when compressing, its last four characters are, in lower case, `.iso`,
`.cso`, `.zso` or `.dax` and the output is the input minus its last four characters
plus the format's extension; when decompressing, they are `.cso`, `.zso` or `.dax` and
the output is the input minus its last four characters plus `.iso`. -/
theorem default_output_names (K : Consts) (H : Host) (a : Arguments)
    (hK : K.WellFormed) (hfmt : a.flags_fmt ∈ K.formats) (hcrc : a.crc = false)
    (hpath : a.output_path = []) (hret : (validate_args K H a).1 = 0)
    (i : Nat) (input : Str) (hi : a.outputs.length ≤ i) (hin : a.inputs[i]? = some input) :
    4 < input.length ∧
    (a.decompress = false →
      spec_lower_ext input ∈ [".iso".data, ".cso".data, ".zso".data, ".dax".data] ∧
      (validate_args K H a).2.outputs[i]?
        = some (input.take (input.length - 4) ++ spec_format_ext K a.flags_fmt)) ∧
    (a.decompress = true →
      spec_lower_ext input ∈ [".cso".data, ".zso".data, ".dax".data] ∧
      (validate_args K H a).2.outputs[i]?
        = some (input.take (input.length - 4) ++ ".iso".data)) := by
  have hout := validate_args_auto_output K H a hcrc hret i input hi hin
  have hlt : i < (validate_args K H a).2.outputs.length := by
    obtain ⟨ho, hlen⟩ := validate_args_outputs K H a hcrc hret
    rw [ho, ← hlen]
    exact (List.getElem?_eq_some.mp hin).1
  obtain ⟨y, hy⟩ : ∃ y, (validate_args K H a).2.outputs[i]? = some y :=
    ⟨_, List.getElem?_eq_getElem hlt⟩
  rw [hy] at hout ⊢
  unfold auto_output at hout
  rw [outputExt_eq hK a hfmt] at hout
  simp only [hpath, ne_eq, not_true_eq_false, if_false] at hout
  by_cases hlen : input.length ≤ 4
  · simp [hlen] at hout
  · rw [if_neg hlen] at hout
    refine ⟨by omega, ?_, ?_⟩
    · intro hd
      simp only [hd, Bool.not_false, Bool.true_and, Bool.false_and, Bool.false_eq_true,
        if_false] at hout
      split_ifs at hout with hc
      · simp only [Option.some.injEq] at hout
        refine ⟨?_, by rw [hout]⟩
        simp only [Bool.and_eq_true, Bool.or_eq_true, decide_eq_true_eq] at hc
        unfold spec_lower_ext
        simp only [List.mem_cons, List.mem_singleton]
        rcases hc.1 with h | (h | h) | h
        · exact Or.inl h
        · exact Or.inr (Or.inl h)
        · exact Or.inr (Or.inr (Or.inl h))
        · exact Or.inr (Or.inr (Or.inr (Or.inl h)))
    · intro hd
      simp only [hd, Bool.not_true, Bool.false_and, Bool.true_and, Bool.false_eq_true,
        if_false] at hout
      split_ifs at hout with hc
      · simp only [Option.some.injEq] at hout
        refine ⟨?_, by rw [hout]⟩
        simp only [Bool.or_eq_true, decide_eq_true_eq] at hc
        unfold spec_lower_ext
        simp only [List.mem_cons, List.mem_singleton]
        rcases hc with (h | h) | h
        · exact Or.inl h
        · exact Or.inr (Or.inl h)
        · exact Or.inr (Or.inr (Or.inl h))

/-- Claim C13 on `maxcso --format=zso -o x.zso first.iso DISC.ISO b.cso`, whose second
input gets `DISC.zso`, and on `maxcso --decompress game.CSO`, whose input gets
`game.iso`. -/
theorem default_output_names_witness :
    (validate_args maxcsoConsts sampleHost namingArgs).1 = 0 ∧
    (validate_args maxcsoConsts sampleHost namingArgs).2.outputs[1]?
      = some "DISC.zso".data ∧
    (validate_args maxcsoConsts sampleHost unpackArgs).1 = 0 ∧
    (validate_args maxcsoConsts sampleHost unpackArgs).2.outputs[0]?
      = some "game.iso".data :=
  ⟨by decide,
    ((default_output_names maxcsoConsts sampleHost namingArgs maxcsoConsts_wf (by decide)
      rfl rfl (by decide) 1 "DISC.ISO".data (by decide) rfl).2.1 rfl).2,
    by decide,
    ((default_output_names maxcsoConsts sampleHost unpackArgs maxcsoConsts_wf (by decide)
      rfl rfl (by decide) 0 "game.CSO".data (by decide) rfl).2.2 rfl).2⟩

/-! ## Options with a value -/

theorem prefix_append_getElem? {α : Type} (l t : List α) :
    (l ++ t)[l.length]? = t.head? := by
  rw [List.getElem?_append_right (Nat.le_refl _), Nat.sub_self]
  cases t <;> simp

/-- The three outcomes of `has_arg_value`, by the shape of `argv[i]`. -/
theorem has_arg_value_outcome (i : Nat) (argv : List Str) (name a : Str) (val : Option Str)
    (ha : argv[i]? = some a) :
    (∀ rest, a = name ++ '=' :: rest →
      has_arg_value i argv name val = (true, i, some rest)) ∧
    (a = name → has_arg_value i argv name val = (true, i + 1, argv[i + 1]?)) ∧
    ((¬ ∃ rest, a = name ++ '=' :: rest) → a ≠ name →
      has_arg_value i argv name val = (false, i, val)) := by
  have hget : argv.getD i [] = a := by simp [ha]
  unfold has_arg_value
  simp only [hget]
  refine ⟨?_, ?_, ?_⟩
  · intro rest h
    subst h
    have h1 : name.isPrefixOf (name ++ '=' :: rest) = true := by
      rw [ List.isPrefixOf_iff_prefix]; exact List.prefix_append _ _
    have h2 : ¬ (name ++ '=' :: rest).length = name.length := by
      simp only [List.length_append, List.length_cons]; omega
    rw [if_pos h1, if_neg h2, prefix_append_getElem?]
    simp
  · intro h
    subst h
    have h1 : a.isPrefixOf a = true := by
      rw [ List.isPrefixOf_iff_prefix]
    simp [h1]
  · intro h1 h2
    by_cases hp : name.isPrefixOf a = true
    · rw [if_pos hp]
      rw [ List.isPrefixOf_iff_prefix] at hp
      obtain ⟨t, rfl⟩ := hp
      have hl : ¬ (name ++ t).length = name.length := by
        intro hl
        simp only [List.length_append] at hl
        have : t = [] := List.length_eq_zero.mp (by omega)
        subst this
        exact h2 (by simp)
      rw [if_neg hl, prefix_append_getElem?]
      cases t with
      | nil => simp
      | cons c rest =>
        have hc : c ≠ '=' := by
          intro hc
          subst hc
          exact h1 ⟨rest, rfl⟩
        simp [hc]
    · rw [if_neg hp]

/-- Claim C14. For `a = argv[i]`, `has_arg_value` returns true with `i` unchanged iff
`a` is `name` followed by `=`, and `val` is then the text after the `=`; it returns true
with `i` advanced by one iff `a` equals `name`, and `val` is then `argv[i+1]`; in every
other case, as when `a` is `name` followed by another character, it returns false and
leaves `i` and `val` unchanged. -/
theorem has_arg_value_spec (i : Nat) (argv : List Str) (name a : Str) (val : Option Str)
    (ha : argv[i]? = some a) :
    (((has_arg_value i argv name val).1 = true ∧ (has_arg_value i argv name val).2.1 = i)
      ↔ ∃ rest, a = name ++ '=' :: rest) ∧
    (∀ rest, a = name ++ '=' :: rest → (has_arg_value i argv name val).2.2 = some rest) ∧
    (((has_arg_value i argv name val).1 = true ∧
        (has_arg_value i argv name val).2.1 = i + 1) ↔ a = name) ∧
    (a = name → (has_arg_value i argv name val).2.2 = argv[i + 1]?) ∧
    ((¬ ∃ rest, a = name ++ '=' :: rest) → a ≠ name →
      has_arg_value i argv name val = (false, i, val)) := by
  obtain ⟨h1, h2, h3⟩ := has_arg_value_outcome i argv name a val ha
  refine ⟨⟨?_, ?_⟩, ?_, ⟨?_, ?_⟩, ?_, h3⟩
  · rintro ⟨ht, hi⟩
    by_contra hne
    by_cases hn : a = name
    · rw [h2 hn] at hi
      simp at hi
    · rw [h3 hne hn] at ht
      simp at ht
  · rintro ⟨rest, hr⟩
    rw [h1 rest hr]
    exact ⟨rfl, rfl⟩
  · intro rest hr
    rw [h1 rest hr]
  · rintro ⟨ht, hi⟩
    by_contra hn
    by_cases he : ∃ rest, a = name ++ '=' :: rest
    · obtain ⟨rest, hr⟩ := he
      rw [h1 rest hr] at hi
      simp at hi
    · rw [h3 he hn] at ht
      simp at ht
  · intro hn
    rw [h2 hn]
    exact ⟨rfl, rfl⟩
  · intro hn
    rw [h2 hn]

/-- Claim C14 on `--block=4096`, on `--block 4096`, and on `--output` tried as
`--out`. -/
theorem has_arg_value_spec_witness :
    has_arg_value 1 ["maxcso".data, "--block=4096".data] "--block".data none
      = (true, 1, some "4096".data) ∧
    has_arg_value 1 ["maxcso".data, "--block".data, "4096".data] "--block".data none
      = (true, 2, some "4096".data) ∧
    has_arg_value 1 ["maxcso".data, "--output".data, "x".data] "--out".data none
      = (false, 1, none) :=
  ⟨by decide, by decide,
    (has_arg_value_spec 1 ["maxcso".data, "--output".data, "x".data] "--out".data
      "--output".data none rfl).2.2.2.2
      (by
        rintro ⟨rest, h⟩
        have h5 := congrArg (fun l => l[5]?) h
        simp at h5)
      (by decide)⟩

/-! ## The `--` marker -/

/-- On `--`, the turn of the option loop ends in `break`, with `i` still at the
marker. -/
theorem parse_arg_marker (K : Consts) (L : Libc) (i : Nat) (argv : List Str)
    (args : Arguments) (val : Option Str) (h : argv.getD i [] = "--".data) :
    parse_arg K L i argv args val = .leave i args := by
  have h2 : argv[i]?.getD [] = ['-', '-'] := by
    rw [← List.getD_eq_getElem?_getD, h]
  simp +decide [parse_arg, has_arg, has_arg_value, has_arg_method, h2]

/-- The second loop of `parse_args` appends `argv[i]`, ..., `argv[argc-1]`. -/
theorem rest_to_inputs_eq (argv : List Str) (fuel i : Nat) (args : Arguments)
    (h : argv.length ≤ fuel + i) :
    rest_to_inputs argv fuel i args = { args with inputs := args.inputs ++ argv.drop i } := by
  induction fuel generalizing i args with
  | zero =>
    simp only [rest_to_inputs]
    rw [List.drop_of_length_le (by omega), List.append_nil]
  | succ n ih =>
    simp only [rest_to_inputs]
    by_cases hi : i < argv.length
    · rw [if_pos hi, ih (i + 1) _ (by omega)]
      simp only [wildcard_to_inputs, List.append_assoc, List.singleton_append]
      rw [List.getD_eq_getElem _ _ hi, List.drop_eq_getElem_cons hi]
    · rw [if_neg hi, List.drop_of_length_le (by omega), List.append_nil]

/-- When the option loop of `parse_args` comes to `--` at index `k`, it is left with `i`
at `k`, and the second loop then takes `argv[k]`, the marker itself, as the first of
the remaining inputs. -/
theorem marker_turn (K : Consts) (L : Libc) (argv : List Str) (fuel k : Nat)
    (args : Arguments) (val : Option Str) (hk : argv[k]? = some "--".data) :
    parse_loop K L argv (fuel + 1) k args val = .leave k args ∧
    (rest_to_inputs argv argv.length k args).inputs
      = args.inputs ++ "--".data :: argv.drop (k + 1) := by
  obtain ⟨hlt, hget⟩ := List.getElem?_eq_some.mp hk
  have hd : argv.getD k [] = "--".data := by simp [hk]
  refine ⟨?_, ?_⟩
  · simp only [parse_loop]
    rw [if_pos hlt, hd, if_pos (by decide), parse_arg_marker K L k argv args val hd]
  · rw [rest_to_inputs_eq argv _ k args (by omega), List.drop_eq_getElem_cons hlt, hget]

/-- Claim C12 fails on the code. On `maxcso -- -a.iso` the option loop breaks with `i`
at the marker, so `parse_args` returns 0 with the inputs `--` and `-a.iso`: the marker
itself is taken as an input, where the claim has `-a.iso` alone. `validate_args` then
finds no output name for `--` and returns 1. -/
theorem marker_becomes_input :
    (parse_args maxcsoConsts sampleLibc (default_args maxcsoConsts) markerArgv).code?
      = some 0 ∧
    (parse_args maxcsoConsts sampleLibc (default_args maxcsoConsts) markerArgv).args?.map
        Arguments.inputs
      = some ["--".data, "-a.iso".data] ∧
    (parse_args maxcsoConsts sampleLibc (default_args maxcsoConsts) markerArgv).args?.map
        (fun a => (validate_args maxcsoConsts sampleHost a).1)
      = some 1 := by
  decide

/-! ## The option loop terminates -/

theorem has_arg_value_false (i : Nat) (argv : List Str) (arg : Str) (val : Option Str)
    (j : Nat) (v : Option Str) (h : has_arg_value i argv arg val = (false, j, v)) :
    j = i ∧ v = val := by
  unfold has_arg_value at h
  simp only at h
  split_ifs at h <;> simp_all

theorem has_arg_value_true (i : Nat) (argv : List Str) (arg : Str) (val : Option Str)
    (j : Nat) (v : Option Str) (h : has_arg_value i argv arg val = (true, j, v)) :
    i ≤ j := by
  unfold has_arg_value at h
  simp only at h
  split_ifs at h <;> simp_all
  omega

/-- A turn of the option loop never moves `i` back, and does not use fuel. -/
theorem parse_arg_flow (K : Consts) (L : Libc) (i : Nat) (argv : List Str)
    (args : Arguments) (val : Option Str) (r : Flow)
    (h : parse_arg K L i argv args val = r) :
    r ≠ .out_of_fuel ∧ ∀ j a v, r = .next j a v → i ≤ j := by
  unfold parse_arg at h
  repeat' (first
    | (split at h <;> rename_i hq <;> first
        | (have ht := has_arg_value_true _ _ _ _ _ _ hq; clear hq)
        | (obtain ⟨rfl, rfl⟩ := has_arg_value_false _ _ _ _ _ _ hq)
        | skip))
  all_goals
    subst h
    refine ⟨fun e => ?_, fun j a v e => ?_⟩
    · cases e
    · cases e <;> omega

/-- Fuel for one turn more than there are arguments left is enough for the option
loop: it is left, or ends in a `return` or in the read of a null `val`. -/
theorem parse_loop_fuel (K : Consts) (L : Libc) (argv : List Str) (fuel : Nat) :
    ∀ (i : Nat) (args : Arguments) (val : Option Str), 0 < fuel →
      argv.length + 1 ≤ fuel + i →
      (∃ j a, parse_loop K L argv fuel i args val = .leave j a) ∨
      (∃ c a, parse_loop K L argv fuel i args val = .ret c a) ∨
      parse_loop K L argv fuel i args val = .null_val := by
  induction fuel with
  | zero => intro i args val h; omega
  | succ n ih =>
    intro i args val _ hle
    simp only [parse_loop]
    by_cases hi : i < argv.length
    · rw [if_pos hi]
      by_cases hd : (argv.getD i []).head? = some '-'
      · rw [if_pos hd]
        obtain ⟨hne, hnext⟩ := parse_arg_flow K L i argv args val _ rfl
        cases hr : parse_arg K L i argv args val with
        | next j a v =>
          have hj := hnext j a v hr
          exact ih (j + 1) a v (by omega) (by omega)
        | leave j a => exact Or.inl ⟨j, a, rfl⟩
        | ret c a => exact Or.inr (Or.inl ⟨c, a, rfl⟩)
        | null_val => exact Or.inr (Or.inr rfl)
        | out_of_fuel => exact absurd hr hne
      · rw [if_neg hd]
        exact ih (i + 1) _ val (by omega) (by omega)
    · rw [if_neg hi]
      exact Or.inl ⟨i, args, rfl⟩

/-- The embedding of `parse_args` does not run out of fuel: it ends in a `return` or in
the read of a null `val`. -/
theorem parse_args_total (K : Consts) (L : Libc) (args : Arguments) (argv : List Str) :
    parse_args K L args argv = .null_val ∨
    ∃ code a, parse_args K L args argv = .ret code a := by
  unfold parse_args
  rcases parse_loop_fuel K L argv (argv.length + 1) 1 args none (by omega) (by omega)
    with ⟨j, a, h⟩ | ⟨c, a, h⟩ | h
  · rw [h]; exact Or.inr ⟨0, _, rfl⟩
  · rw [h]; exact Or.inr ⟨c, a, rfl⟩
  · rw [h]; exact Or.inl rfl

/-! ## The flag fields after `parse_args` -/

/-- A turn of the option loop keeps the flag fields within what `parse_args` can
store. -/
theorem parse_arg_flags {K : Consts} (hK : K.WellFormed) (L : Libc) (i : Nat)
    (argv : List Str) (args : Arguments) (val : Option Str) (r : Flow)
    (hP : args.FlagsParsed K) (h : parse_arg K L i argv args val = r) :
    (∀ j a v, r = .next j a v → a.FlagsParsed K) ∧
    (∀ j a, r = .leave j a → a.FlagsParsed K) ∧
    (∀ c a, r = .ret c a → a.FlagsParsed K) := by
  unfold parse_arg at h
  repeat' (first
    | (split at h <;> rename_i hq <;> first
        | (have hm := has_arg_method_sub hK _ _ _ hq)
        | (have hm := parse_format_mem K _ _ hq)
        | skip))
  all_goals
    subst h
    refine ⟨fun j a v e => ?_, fun j a e => ?_, fun c a e => ?_⟩ <;> cases e <;>
      refine ⟨?_, ?_, ?_, ?_⟩ <;>
      first
        | exact hP.1
        | exact hP.2.1
        | exact hP.2.2.1
        | exact hP.2.2.2
        | exact hm
        | exact or_sub hP.2.1 hm
        | exact or_sub hP.2.2.1 hm
        | exact or_sub hP.2.2.2 hm

theorem parse_loop_flags {K : Consts} (hK : K.WellFormed) (L : Libc) (argv : List Str)
    (fuel : Nat) :
    ∀ (i : Nat) (args : Arguments) (val : Option Str), args.FlagsParsed K →
      (∀ j a, parse_loop K L argv fuel i args val = .leave j a → a.FlagsParsed K) ∧
      (∀ c a, parse_loop K L argv fuel i args val = .ret c a → a.FlagsParsed K) := by
  induction fuel with
  | zero =>
    intro i args val _
    simp [parse_loop]
  | succ n ih =>
    intro i args val hP
    simp only [parse_loop]
    by_cases hi : i < argv.length
    · rw [if_pos hi]
      by_cases hd : (argv.getD i []).head? = some '-'
      · rw [if_pos hd]
        obtain ⟨h1, h2, h3⟩ := parse_arg_flags hK L i argv args val _ hP rfl
        cases hr : parse_arg K L i argv args val with
        | next j a v => exact ih (j + 1) a v (h1 j a v hr)
        | leave j a =>
          refine ⟨fun j2 a2 e => ?_, fun c a2 e => ?_⟩
          · cases e; exact h2 j a hr
          · cases e
        | ret c a =>
          refine ⟨fun j2 a2 e => ?_, fun c2 a2 e => ?_⟩
          · cases e
          · cases e; exact h3 c a hr
        | null_val =>
          refine ⟨fun j2 a2 e => ?_, fun c2 a2 e => ?_⟩ <;> cases e
        | out_of_fuel =>
          refine ⟨fun j2 a2 e => ?_, fun c2 a2 e => ?_⟩ <;> cases e
      · rw [if_neg hd]
        exact ih (i + 1) _ val hP
    · rw [if_neg hi]
      refine ⟨fun j2 a2 e => ?_, fun c a2 e => ?_⟩
      · cases e; exact hP
      · cases e

/-- Whatever the command line, the record `parse_args` returns, started as `main`
starts it on `default_args`, has `flags_fmt` among the four format values and method
bits only in `flags_use`, `flags_no` and `flags_only`. -/
theorem parse_args_flags {K : Consts} (hK : K.WellFormed) (L : Libc) (argv : List Str)
    (code : Int) (a : Arguments)
    (h : parse_args K L (default_args K) argv = .ret code a) : a.FlagsParsed K := by
  have h0 : (default_args K).FlagsParsed K :=
    ⟨by simp [default_args, Consts.formats], by simp [default_args],
      by simp [default_args], by simp [default_args]⟩
  obtain ⟨h1, h2⟩ := parse_loop_flags hK L argv (argv.length + 1) 1 (default_args K) none h0
  unfold parse_args at h
  cases hr : parse_loop K L argv (argv.length + 1) 1 (default_args K) none with
  | next j b v => rw [hr] at h; cases h
  | leave j b =>
    rw [hr] at h
    simp only [Flow.ret.injEq] at h
    rw [← h.2, rest_to_inputs_eq argv _ j b (by omega)]
    exact h1 j b hr
  | ret c b =>
    rw [hr] at h
    cases h
    exact h2 _ _ hr
  | null_val => rw [hr] at h; cases h
  | out_of_fuel => rw [hr] at h; cases h

end Maxcso
